import Mathlib

/-!
Verification development for the casait-homeassistant device-communication core.

The Lean definitions below are shallow embeddings of the Python source under
`custom_components/casait_smarthome/services/`.  Conventions used throughout:

* machine bytes are `Nat` values (the Python code only ever produces values in
  `[0, 255]`; where Python masks with `& 0xFF` we take `% 256`);
* wall-clock time (`time.time()` floats) is modelled as `Nat` seconds, except in
  the DS2438 module where sub-second constants (0.050 s) force `ℚ`;
* hardware I/O performed through the bus/bridge objects is modelled by oracle
  parameters: a `Bool` for each checked write / select result and `Option Nat`
  streams for byte reads (`none` models a failed read / raised `OSError`);
* Python dictionaries keyed by device-id strings are modelled as functions
  `Nat → Option _` (device ids are opaque keys).
-/

namespace OneWire

/-- One shift round of `OneWireBus._calc_crc8` (polynomial 0x8C, LSB first). -/
def crc8Step (crc : Nat) : Nat :=
  if crc % 2 = 1 then (crc / 2) ^^^ 0x8C else crc / 2

/-- Fold one input byte into the CRC8 state (`crc ^= byte` then 8 shift rounds). -/
def crc8Byte (crc b : Nat) : Nat :=
  (List.range 8).foldl (fun c _ => crc8Step c) (crc ^^^ b)

/-- `OneWireBus._calc_crc8`: CRC8 with polynomial x^8+x^5+x^4+1, LSB first, init 0. -/
def calc_crc8 (data : List Nat) : Nat :=
  data.foldl crc8Byte 0

/-- One shift round of `OneWireBus.calc_crc16` (polynomial 0xA001, modbus). -/
def crc16Step (crc : Nat) : Nat :=
  if crc % 2 = 1 then (crc / 2) ^^^ 0xA001 else crc / 2

/-- Fold one input byte into the CRC16 state. -/
def crc16Byte (crc b : Nat) : Nat :=
  (List.range 8).foldl (fun c _ => crc16Step c) (crc ^^^ b)

/-- `OneWireBus.calc_crc16`: CRC16, polynomial 0xA001, init 0. -/
def calc_crc16 (data : List Nat) : Nat :=
  data.foldl crc16Byte 0

/-- `OneWireBus.verify_crc8`. -/
def verify_crc8 (data : List Nat) (crc : Nat) : Bool :=
  calc_crc8 data == crc

/-!
### The ROM search (`OneWireBus._scan_bus`)

A 64-bit ROM code is modelled as a `List Bool` of length 64 whose `i`-th entry
is the bit read at `id_bit_number = i + 1` (so entry `8*j + k` is bit `k`,
LSB first, of ROM byte `j`, matching the `rom_no` byte packing in the code).

The simulated bus carries a finite set `A` of devices.  Reading a bit slot
returns the wired AND of the participating devices' outputs, so with active
set `A`:  `id_bit` is 1 iff every active device has bit 1, `cmp_id_bit` is 1
iff every active device has bit 0, and both are 1 iff no device participates.
Writing the chosen direction bit deselects every active device whose ROM bit
differs.  `wire_reset` reports a presence pulse iff at least one device is
attached.
-/

/-- ROM codes as bit lists (bit `i` of the search = entry `i`). -/
abbrev Rom := List Bool

/-- Head bit of a (suffix of a) ROM code. -/
def hd (r : Rom) : Bool := r.headD false

/-- Devices of `A` that answer bit `b` at the current position, with that bit
consumed.  This is the effect of the master writing direction bit `b`. -/
def branch (A : List Rom) (b : Bool) : List Rom :=
  (A.filter fun r => hd r == b).map List.tail

/-- Whether both bit values occur among the active devices (a discrepancy). -/
def isForkB (A : List Rom) : Bool :=
  (A.any fun r => hd r) && (A.any fun r => !hd r)

/-- One pass of the inner 64-bit loop of `_scan_bus` over the simulated bus.

`A` is the active device set (as suffixes), `prev` the corresponding suffix of
the retained `rom_no` buffer, `lrem` the number of positions until
`id_bit_number = last_discrepancy` (so the code's `id_bit_number ==
last_discrepancy` test is `lrem = 1` and `id_bit_number > last_discrepancy`
is `lrem = 0`), `pos` the current absolute `id_bit_number`, and `lz` the
running `last_zero`.  Returns the discovered ROM suffix and the final
`last_zero`, or `none` on the `id_bit and cmp_id_bit` abort (empty bus). -/
def passAux : List Rom → Rom → Nat → Nat → Nat → Option (Rom × Nat)
  | _, [], _, _, lz => some ([], lz)
  | A, pb :: prest, lrem, pos, lz =>
    let idb := A.all fun r => hd r
    let cmpb := A.all fun r => !hd r
    if idb && cmpb then none
    else
      let dir := if idb != cmpb then idb
        else match lrem with
          | 1 => true
          | 0 => false
          | _ => pb
      let fork := !idb && !cmpb
      let lz' := if fork && !dir then pos else lz
      match passAux (branch A dir) prest (lrem - 1) (pos + 1) lz' with
      | none => none
      | some (rest, lzf) => some (dir :: rest, lzf)

/-- ROM byte `j` (LSB-first packing of bits `8*j .. 8*j+7`), as in `rom_no`. -/
def bitsToByte (bits : List Bool) : Nat :=
  bits.foldr (fun b acc => (if b then 1 else 0) + 2 * acc) 0

/-- The 8 bytes of a ROM code, in `rom_no` order. -/
def romBytes (r : Rom) : List Nat :=
  (List.range 8).map fun j => bitsToByte ((r.drop (8 * j)).take 8)

/-- The CRC registration guard of `_scan_bus`:
`self._calc_crc8(bytes(rom_no[:-1])) == rom_no[7]`. -/
def crcValid (r : Rom) : Bool :=
  calc_crc8 ((romBytes r).take 7) == (romBytes r).getD 7 0

/-- The outer `while not last_device_flag` loop of `_scan_bus`.  Each round
runs one 64-bit pass, registers the found ROM if its CRC checks out, then
either stops (`last_discrepancy == 0`) or re-runs with the new pivot.  The
source loop is unbounded; `fuel` is provably sufficient at `S.length + 1`
(each pass discovers a strictly larger ROM).  The `Bool` is `true` iff the
loop terminated normally (reaching the `self.devices = devices` assignment). -/
def scanAux (S : List Rom) : Nat → Rom → Nat → List Rom → List Rom × Bool
  | 0, _, _, acc => (acc, false)
  | fuel + 1, prev, l, acc =>
    match passAux S prev l 1 0 with
    | none => (acc, false)
    | some (rom, lz) =>
      let acc' := if crcValid rom then acc ++ [rom] else acc
      match lz with
      | 0 => (acc', true)
      | _ + 1 => scanAux S fuel rom lz acc'

/-- The all-zero initial `rom_no = bytearray(8)`. -/
def zeroRom : Rom := List.replicate 64 false

/-- Run the search proper: first pass has `last_discrepancy = 0`. -/
def scanList (S : List Rom) : List Rom × Bool :=
  scanAux S (S.length + 1) zeroRom 0 []

/-- `_scan_bus` including its effect on the `self.devices` registry.
With no device attached `wire_reset` sees no presence pulse and the method
returns `{}` early, leaving `self.devices` untouched; likewise the registry is
only replaced on normal loop termination (the `self.devices = devices` line is
not reached by the early `return devices` aborts). -/
def scanBus (S oldDevices : List Rom) : List Rom :=
  if S.isEmpty then oldDevices
  else
    match scanList S with
    | (acc, true) => acc
    | (_, false) => oldDevices

/-- Numeric value of a ROM (the bit at the smaller `id_bit_number` is the more
significant digit): passes of the search discover ROMs in increasing order of
this value. -/
def romVal : Rom → Nat
  | [] => 0
  | b :: rest => (if b then 2 ^ rest.length else 0) + romVal rest

/-- Relative position (0-based) of the last discrepancy at which the walk along
`r` takes the 0 branch while some active device offers a 1 — the specification
of the `last_zero` value produced by a pass that discovers `r`. -/
def lzRel : List Rom → Rom → Option Nat
  | _, [] => none
  | A, b :: rest =>
    match lzRel (branch A b) rest with
    | some j => some (j + 1)
    | none => if isForkB A && !b then some 0 else none

end OneWire

namespace OneWire

@[simp] lemma hd_cons (a : Bool) (t : Rom) : hd (a :: t) = a := rfl

lemma romVal_lt (r : Rom) : romVal r < 2 ^ r.length := by
  induction r with
  | nil => simp [romVal]
  | cons b rest ih => cases b <;> simp [romVal, pow_succ] <;> omega

lemma romVal_cons_false (x : Rom) : romVal (false :: x) = romVal x := by
  simp [romVal]

lemma romVal_cons_true (x : Rom) : romVal (true :: x) = 2 ^ x.length + romVal x := by
  simp [romVal]

lemma romVal_false_lt_true {x y : Rom} (h : x.length = y.length) :
    romVal (false :: x) < romVal (true :: y) := by
  have hx := romVal_lt x
  rw [h] at hx
  rw [romVal_cons_false, romVal_cons_true]
  omega

lemma romVal_cons_lt_cons {b : Bool} {x y : Rom} (h : x.length = y.length) :
    romVal (b :: x) < romVal (b :: y) ↔ romVal x < romVal y := by
  cases b
  · rw [romVal_cons_false, romVal_cons_false]
  · rw [romVal_cons_true, romVal_cons_true, h]
    omega

lemma romVal_cons_le_cons {b : Bool} {x y : Rom} (h : x.length = y.length) :
    romVal (b :: x) ≤ romVal (b :: y) ↔ romVal x ≤ romVal y := by
  cases b
  · rw [romVal_cons_false, romVal_cons_false]
  · rw [romVal_cons_true, romVal_cons_true, h]
    omega

lemma romVal_inj : ∀ {x y : Rom}, x.length = y.length → romVal x = romVal y → x = y
  | [], [], _, _ => rfl
  | a :: x, b :: y, hlen, hval => by
    have hl : x.length = y.length := by simpa using hlen
    have hx := romVal_lt x
    have hy := romVal_lt y
    rw [hl] at hx
    cases a <;> cases b
    · rw [romVal_cons_false, romVal_cons_false] at hval
      rw [romVal_inj hl hval]
    · rw [romVal_cons_false, romVal_cons_true] at hval
      exact absurd hval (by omega)
    · rw [romVal_cons_true, romVal_cons_false, hl] at hval
      exact absurd hval (by omega)
    · rw [romVal_cons_true, romVal_cons_true, hl] at hval
      have hxy : romVal x = romVal y := by omega
      rw [romVal_inj hl hxy]

lemma tail_mem_branch {A : List Rom} {b : Bool} {r : Rom} (hr : r ∈ A) (h : hd r = b) :
    r.tail ∈ branch A b := by
  simp only [branch, List.mem_map]
  exact ⟨r, by simp [List.mem_filter, hr, h], rfl⟩

lemma of_mem_branch {A : List Rom} {n : Nat} (hlen : ∀ a ∈ A, a.length = n + 1)
    {b : Bool} {s : Rom} (hs : s ∈ branch A b) : b :: s ∈ A ∧ s.length = n := by
  simp only [branch, List.mem_map, List.mem_filter] at hs
  obtain ⟨r, ⟨hrA, hrb⟩, rfl⟩ := hs
  have hr := hlen r hrA
  cases r with
  | nil => simp at hr
  | cons a t =>
    have : a = b := by simpa using hrb
    subst this
    exact ⟨hrA, by simpa using hr⟩

lemma length_branch {A : List Rom} {n : Nat} (hlen : ∀ a ∈ A, a.length = n + 1)
    (b : Bool) : ∀ s ∈ branch A b, s.length = n :=
  fun _ hs => (of_mem_branch hlen hs).2

lemma eq_cons_of_mem {A : List Rom} {n : Nat} (hlen : ∀ a ∈ A, a.length = n + 1)
    {r : Rom} (hr : r ∈ A) : r = hd r :: r.tail ∧ r.tail.length = n := by
  have h := hlen r hr
  cases r with
  | nil => simp at h
  | cons a t => exact ⟨rfl, by simpa using h⟩

lemma nodup_branch {A : List Rom} {n : Nat} (hlen : ∀ a ∈ A, a.length = n + 1)
    (hnd : A.Nodup) (b : Bool) : (branch A b).Nodup := by
  apply List.Nodup.map_on _ (hnd.filter _)
  intro x hx y hy hxy
  simp only [List.mem_filter] at hx hy
  obtain ⟨hx1, hx2⟩ := (eq_cons_of_mem hlen hx.1)
  obtain ⟨hy1, hy2⟩ := (eq_cons_of_mem hlen hy.1)
  have hbx : hd x = b := by simpa using hx.2
  have hby : hd y = b := by simpa using hy.2
  rw [hx1, hy1, hbx, hby, hxy]

lemma isForkB_iff {A : List Rom} :
    isForkB A = true ↔ (∃ a ∈ A, hd a = true) ∧ (∃ a ∈ A, hd a = false) := by
  simp [isForkB, List.any_eq_true]

lemma lzRel_none_iff : ∀ {r : Rom} {A : List Rom}, r ∈ A → (∀ a ∈ A, a.length = r.length) →
    (lzRel A r = none ↔ ∀ a ∈ A, romVal a ≤ romVal r)
  | [], A, _, hlen => by
    constructor
    · intro _ a ha
      have h0 : a = [] := List.eq_nil_of_length_eq_zero (hlen a ha)
      simp [h0]
    · intro _; rfl
  | b :: rest, A, hr, hlen => by
    have hlen' : ∀ a ∈ A, a.length = rest.length + 1 := by
      intro a ha; simpa using hlen a ha
    have hblen : ∀ s ∈ branch A b, s.length = rest.length := length_branch hlen' b
    have hrt : rest ∈ branch A b := by
      have := tail_mem_branch hr (b := b) (by rw [hd_cons])
      simpa using this
    have ih := lzRel_none_iff hrt hblen
    show (match lzRel (branch A b) rest with
      | some j => some (j + 1)
      | none => if isForkB A && !b then some 0 else none) = none ↔ _
    rcases hcase : lzRel (branch A b) rest with _ | j
    · rw [hcase] at ih
      have htails := ih.mp rfl
      cases b
      · constructor
        · intro hnone a ha
          simp only [Bool.not_false, Bool.and_true] at hnone
          obtain ⟨ha1, ha2⟩ := eq_cons_of_mem hlen' ha
          rcases hv : hd a with _ | _
          · rw [ha1, hv]
            rw [(romVal_cons_le_cons (b := false) (x := a.tail) (y := rest) ha2)]
            have := htails (a.tail) (by { have := tail_mem_branch ha hv; exact this })
            exact this
          · exfalso
            have hfork : isForkB A = true := by
              rw [isForkB_iff]
              exact ⟨⟨a, ha, hv⟩, ⟨false :: rest, hr, rfl⟩⟩
            rw [hfork] at hnone
            simp at hnone
        · intro hall
          simp only [Bool.not_false, Bool.and_true]
          have hnofork : isForkB A = false := by
            by_contra hne
            have hf : isForkB A = true := by
              cases hc : isForkB A
              · exact absurd hc hne
              · rfl
            obtain ⟨⟨a, ha, hv⟩, _⟩ := isForkB_iff.mp hf
            obtain ⟨ha1, ha2⟩ := eq_cons_of_mem hlen' ha
            have := hall a ha
            rw [ha1, hv] at this
            exact absurd this (not_le.mpr (romVal_false_lt_true (by rw [ha2])))
          rw [hnofork]
          rfl
      · constructor
        · intro _ a ha
          obtain ⟨ha1, ha2⟩ := eq_cons_of_mem hlen' ha
          rcases hv : hd a with _ | _
          · rw [ha1, hv]
            exact le_of_lt (romVal_false_lt_true (by rw [ha2]))
          · rw [ha1, hv]
            rw [(romVal_cons_le_cons (b := true) (x := a.tail) (y := rest) ha2)]
            exact htails (a.tail) (tail_mem_branch ha hv)
        · intro _
          simp
    · rw [hcase] at ih
      constructor
      · intro h; exact absurd h (by simp)
      · intro hall
        exfalso
        have : ¬∀ a ∈ branch A b, romVal a ≤ romVal rest := by
          intro hle
          have := ih.mpr hle
          simp at this
        obtain ⟨s, hs, hgt⟩ := by
          push_neg at this
          exact this
        obtain ⟨hsA, hslen⟩ := of_mem_branch hlen' hs
        have := hall (b :: s) hsA
        rw [(romVal_cons_le_cons (b := b) (x := s) (y := rest) hslen)] at this
        exact absurd this (not_le.mpr hgt)

end OneWire

namespace OneWire

lemma exists_true_of_not_allfalse {A : List Rom} (h : (A.all fun r => !hd r) = false) :
    ∃ a ∈ A, hd a = true := by
  by_contra hc
  push_neg at hc
  have hall : (A.all fun r => !hd r) = true := by
    simp only [List.all_eq_true]
    intro a ha
    cases hv : hd a
    · rfl
    · exact absurd hv (hc a ha)
  rw [hall] at h
  cases h

lemma exists_false_of_not_alltrue {A : List Rom} (h : (A.all fun r => hd r) = false) :
    ∃ a ∈ A, hd a = false := by
  by_contra hc
  push_neg at hc
  have hall : (A.all fun r => hd r) = true := by
    simp only [List.all_eq_true]
    intro a ha
    cases hv : hd a
    · exact absurd hv (hc a ha)
    · rfl
  rw [hall] at h
  cases h

lemma isForkB_true_of_not_all {A : List Rom} (h1 : (A.all fun r => hd r) = false)
    (h2 : (A.all fun r => !hd r) = false) : isForkB A = true := by
  rw [isForkB_iff]
  exact ⟨exists_true_of_not_allfalse h2, exists_false_of_not_alltrue h1⟩

lemma isForkB_false_of_alltrue {A : List Rom} (h : (A.all fun r => hd r) = true) :
    isForkB A = false := by
  cases hf : isForkB A
  · rfl
  · obtain ⟨_, a, ha, hv⟩ := isForkB_iff.mp hf
    have := List.all_eq_true.mp h a ha
    rw [hv] at this
    cases this

lemma isForkB_false_of_allfalse {A : List Rom} (h : (A.all fun r => !hd r) = true) :
    isForkB A = false := by
  cases hf : isForkB A
  · rfl
  · obtain ⟨⟨a, ha, hv⟩, _⟩ := isForkB_iff.mp hf
    have := List.all_eq_true.mp h a ha
    rw [hv] at this
    cases this

lemma branch_ne_nil {A : List Rom} {b : Bool} (h : ∃ a ∈ A, hd a = b) : branch A b ≠ [] := by
  obtain ⟨a, ha, hab⟩ := h
  exact List.ne_nil_of_mem (tail_mem_branch ha hab)

lemma not_nil_mem {A : List Rom} (hne : A ≠ []) : ∃ a, a ∈ A :=
  List.exists_mem_of_ne_nil A hne

lemma passAux_min : ∀ (prev : Rom) (A : List Rom) (pos lz : Nat), A ≠ [] →
    (∀ a ∈ A, a.length = prev.length) →
    ∃ m, m ∈ A ∧ (∀ a ∈ A, romVal m ≤ romVal a) ∧
      passAux A prev 0 pos lz =
        some (m, match lzRel A m with | some j => pos + j | none => lz)
  | [], A, pos, lz, hne, hlen => by
    obtain ⟨a, ha⟩ := not_nil_mem hne
    have ha0 : a = [] := List.eq_nil_of_length_eq_zero (hlen a ha)
    subst ha0
    refine ⟨[], ha, ?_, rfl⟩
    intro a' ha'
    have h0 : a' = [] := List.eq_nil_of_length_eq_zero (hlen a' ha')
    simp [h0]
  | pb :: prest, A, pos, lz, hne, hlen => by
    have hlen' : ∀ a ∈ A, a.length = prest.length + 1 := fun a ha => by simpa using hlen a ha
    rcases hidb : (A.all fun r => hd r) with _ | _ <;>
      rcases hcmpb : (A.all fun r => !hd r) with _ | _
    · -- discrepancy: both bit values occur; with no pivot left the 0 branch is taken
      have hstep : passAux A (pb :: prest) 0 pos lz =
          match passAux (branch A false) prest 0 (pos + 1) pos with
          | none => none
          | some (rest2, lzf) => some (false :: rest2, lzf) := by
        simp [passAux, hidb, hcmpb]
      have hfork := isForkB_true_of_not_all hidb hcmpb
      have hbne := branch_ne_nil (exists_false_of_not_alltrue hidb)
      obtain ⟨m', hm'mem, hm'min, heq⟩ :=
        passAux_min prest (branch A false) (pos + 1) pos hbne (length_branch hlen' false)
      obtain ⟨hmA, hmlen⟩ := of_mem_branch hlen' hm'mem
      refine ⟨false :: m', hmA, ?_, ?_⟩
      · intro a ha
        obtain ⟨ha1, ha2⟩ := eq_cons_of_mem hlen' ha
        rcases hv : hd a with _ | _
        · rw [ha1, hv, romVal_cons_le_cons (by rw [hmlen, ha2])]
          exact hm'min a.tail (tail_mem_branch ha hv)
        · rw [ha1, hv]
          exact le_of_lt (romVal_false_lt_true (by rw [hmlen, ha2]))
      · rcases hlzb : lzRel (branch A false) m' with _ | t
        · rw [hstep, heq]
          have h2 : lzRel A (false :: m') = some 0 := by simp [lzRel, hlzb, hfork]
          rw [hlzb, h2]
          rfl
        · rw [hstep, heq]
          have h2 : lzRel A (false :: m') = some (t + 1) := by simp [lzRel, hlzb]
          rw [hlzb, h2]
          show some (false :: m', pos + 1 + t) = some (false :: m', pos + (t + 1))
          have h3 : pos + 1 + t = pos + (t + 1) := by omega
          rw [h3]
    · -- every active device reads bit 0: the forced direction is 0
      have hstep : passAux A (pb :: prest) 0 pos lz =
          match passAux (branch A false) prest 0 (pos + 1) lz with
          | none => none
          | some (rest2, lzf) => some (false :: rest2, lzf) := by
        simp [passAux, hidb, hcmpb]
      have hnofork := isForkB_false_of_allfalse hcmpb
      have hbne : branch A false ≠ [] := branch_ne_nil (by
        obtain ⟨a, ha⟩ := not_nil_mem hne
        exact ⟨a, ha, by simpa using List.all_eq_true.mp hcmpb a ha⟩)
      obtain ⟨m', hm'mem, hm'min, heq⟩ :=
        passAux_min prest (branch A false) (pos + 1) lz hbne (length_branch hlen' false)
      obtain ⟨hmA, hmlen⟩ := of_mem_branch hlen' hm'mem
      refine ⟨false :: m', hmA, ?_, ?_⟩
      · intro a ha
        obtain ⟨ha1, ha2⟩ := eq_cons_of_mem hlen' ha
        have hv : hd a = false := by simpa using List.all_eq_true.mp hcmpb a ha
        rw [ha1, hv, romVal_cons_le_cons (by rw [hmlen, ha2])]
        exact hm'min a.tail (tail_mem_branch ha hv)
      · rcases hlzb : lzRel (branch A false) m' with _ | t
        · rw [hstep, heq]
          have h2 : lzRel A (false :: m') = none := by simp [lzRel, hlzb, hnofork]
          rw [hlzb, h2]
        · rw [hstep, heq]
          have h2 : lzRel A (false :: m') = some (t + 1) := by simp [lzRel, hlzb]
          rw [hlzb, h2]
          show some (false :: m', pos + 1 + t) = some (false :: m', pos + (t + 1))
          have h3 : pos + 1 + t = pos + (t + 1) := by omega
          rw [h3]
    · -- every active device reads bit 1: the forced direction is 1
      have hstep : passAux A (pb :: prest) 0 pos lz =
          match passAux (branch A true) prest 0 (pos + 1) lz with
          | none => none
          | some (rest2, lzf) => some (true :: rest2, lzf) := by
        simp [passAux, hidb, hcmpb]
      have hbne : branch A true ≠ [] := branch_ne_nil (by
        obtain ⟨a, ha⟩ := not_nil_mem hne
        exact ⟨a, ha, List.all_eq_true.mp hidb a ha⟩)
      obtain ⟨m', hm'mem, hm'min, heq⟩ :=
        passAux_min prest (branch A true) (pos + 1) lz hbne (length_branch hlen' true)
      obtain ⟨hmA, hmlen⟩ := of_mem_branch hlen' hm'mem
      refine ⟨true :: m', hmA, ?_, ?_⟩
      · intro a ha
        obtain ⟨ha1, ha2⟩ := eq_cons_of_mem hlen' ha
        have hv : hd a = true := List.all_eq_true.mp hidb a ha
        rw [ha1, hv, romVal_cons_le_cons (by rw [hmlen, ha2])]
        exact hm'min a.tail (tail_mem_branch ha hv)
      · rcases hlzb : lzRel (branch A true) m' with _ | t
        · rw [hstep, heq]
          have h2 : lzRel A (true :: m') = none := by simp [lzRel, hlzb]
          rw [hlzb, h2]
        · rw [hstep, heq]
          have h2 : lzRel A (true :: m') = some (t + 1) := by simp [lzRel, hlzb]
          rw [hlzb, h2]
          show some (true :: m', pos + 1 + t) = some (true :: m', pos + (t + 1))
          have h3 : pos + 1 + t = pos + (t + 1) := by omega
          rw [h3]
    · -- both reads 1: impossible while any device is attached
      obtain ⟨a, ha⟩ := not_nil_mem hne
      have h1 := List.all_eq_true.mp hidb a ha
      have h2 := List.all_eq_true.mp hcmpb a ha
      rw [h1] at h2
      cases h2

end OneWire

namespace OneWire

lemma mem_shape {A : List Rom} {n : Nat} (hlen : ∀ a ∈ A, a.length = n + 1)
    {a : Rom} (ha : a ∈ A) : ∃ b t, a = b :: t ∧ t.length = n := by
  have h := hlen a ha
  cases a with
  | nil => simp at h
  | cons b t => exact ⟨b, t, rfl, by simpa using h⟩

lemma succ_glue {A : List Rom} {b : Bool} {rest m' : Rom} {j0 pos lz lz'' : Nat}
    (hlen' : ∀ a ∈ A, a.length = rest.length + 1)
    (hm'A : m' ∈ branch A b)
    (hm'gt : romVal rest < romVal m')
    (hm'min : ∀ s ∈ branch A b, romVal rest < romVal s → romVal m' ≤ romVal s)
    (hstep : passAux A (b :: rest) (j0 + 1 + 1) pos lz =
      match passAux (branch A b) rest (j0 + 1) (pos + 1) lz'' with
      | none => none
      | some (rest2, lzf) => some (b :: rest2, lzf))
    (heq : passAux (branch A b) rest (j0 + 1) (pos + 1) lz'' =
      some (m', match lzRel (branch A b) m' with | some t => pos + 1 + t | none => lz''))
    (hlzn : (match (if isForkB A && !b then some 0 else none : Option Nat) with
      | some t => pos + t | none => lz) = lz'') :
    ∃ m, m ∈ A ∧ romVal (b :: rest) < romVal m ∧
      (∀ a ∈ A, romVal (b :: rest) < romVal a → romVal m ≤ romVal a) ∧
      passAux A (b :: rest) (j0 + 1 + 1) pos lz =
        some (m, match lzRel A m with | some t => pos + t | none => lz) := by
  obtain ⟨hmA, hmlen⟩ := of_mem_branch hlen' hm'A
  refine ⟨b :: m', hmA, ?_, ?_, ?_⟩
  · exact (romVal_cons_lt_cons hmlen.symm).mpr hm'gt
  · intro a ha hgt
    obtain ⟨ab, tl, rfl, ha2⟩ := mem_shape hlen' ha
    by_cases hab : ab = b
    · subst hab
      rw [romVal_cons_lt_cons ha2.symm] at hgt
      rw [romVal_cons_le_cons (by rw [hmlen, ha2])]
      exact hm'min tl (tail_mem_branch ha rfl) hgt
    · cases b with
      | false =>
        have habT : ab = true := by
          cases ab
          · exact absurd rfl hab
          · rfl
        subst habT
        exact le_of_lt (romVal_false_lt_true (by rw [hmlen, ha2]))
      | true =>
        have habF : ab = false := by
          cases ab
          · rfl
          · exact absurd rfl hab
        subst habF
        exact absurd hgt (not_lt.mpr (le_of_lt (romVal_false_lt_true ha2)))
  · rcases hlzb : lzRel (branch A b) m' with _ | t
    · rw [hstep, heq]
      have h2 : lzRel A (b :: m') = (if isForkB A && !b then some 0 else none) := by
        simp [lzRel, hlzb]
      rw [hlzb, h2]
      show some (b :: m', lz'') = some (b :: m',
        match (if isForkB A && !b then some 0 else none : Option Nat) with
        | some t => pos + t | none => lz)
      rw [hlzn]
    · rw [hstep, heq]
      have h2 : lzRel A (b :: m') = some (t + 1) := by simp [lzRel, hlzb]
      rw [hlzb, h2]
      show some (b :: m', pos + 1 + t) = some (b :: m', pos + (t + 1))
      have h3 : pos + 1 + t = pos + (t + 1) := by omega
      rw [h3]

lemma passAux_succ : ∀ (r : Rom) (A : List Rom) (j pos lz : Nat), r ∈ A → A.Nodup →
    (∀ a ∈ A, a.length = r.length) → lzRel A r = some j →
    ∃ m, m ∈ A ∧ romVal r < romVal m ∧ (∀ a ∈ A, romVal r < romVal a → romVal m ≤ romVal a) ∧
      passAux A r (j + 1) pos lz =
        some (m, match lzRel A m with | some t => pos + t | none => lz)
  | [], _, _, _, _, _, _, _, hj => by cases hj
  | b :: rest, A, j, pos, lz, hr, hnd, hlen, hj => by
    have hlen' : ∀ a ∈ A, a.length = rest.length + 1 := fun a ha => by simpa using hlen a ha
    have hrt : rest ∈ branch A b := tail_mem_branch hr rfl
    rcases hin : lzRel (branch A b) rest with _ | j0
    · -- no later discrepancy below this node: the pivot is here, direction forced to 1
      have hlz : lzRel A (b :: rest) = if isForkB A && !b then some 0 else none := by
        simp [lzRel, hin]
      rw [hlz] at hj
      by_cases hcond : (isForkB A && !b) = true
      · rw [if_pos hcond] at hj
        injection hj with hj0
        subst hj0
        cases b with
        | true => simp at hcond
        | false =>
          have hforkT : isForkB A = true := by simpa using hcond
          obtain ⟨⟨aT, haT, havT⟩, hFex⟩ := isForkB_iff.mp hforkT
          have hidb : (A.all fun r => hd r) = false := by
            cases h : (A.all fun r => hd r)
            · rfl
            · obtain ⟨aF, haF, havF⟩ := hFex
              have := List.all_eq_true.mp h aF haF
              rw [havF] at this
              cases this
          have hcmpb : (A.all fun r => !hd r) = false := by
            cases h : (A.all fun r => !hd r)
            · rfl
            · have := List.all_eq_true.mp h aT haT
              rw [havT] at this
              cases this
          have hstep : passAux A (false :: rest) (0 + 1) pos lz =
              match passAux (branch A true) rest 0 (pos + 1) lz with
              | none => none
              | some (rest2, lzf) => some (true :: rest2, lzf) := by
            simp [passAux, hidb, hcmpb]
          have hbneT : branch A true ≠ [] := branch_ne_nil ⟨aT, haT, havT⟩
          obtain ⟨m', hm'mem, hm'min, heq⟩ :=
            passAux_min rest (branch A true) (pos + 1) lz hbneT (length_branch hlen' true)
          obtain ⟨hmA, hmlen⟩ := of_mem_branch hlen' hm'mem
          refine ⟨true :: m', hmA, romVal_false_lt_true hmlen.symm, ?_, ?_⟩
          · intro a ha hgt
            obtain ⟨ab, tl, rfl, ha2⟩ := mem_shape hlen' ha
            cases ab with
            | false =>
              exfalso
              have hbF : ∀ s ∈ branch A false, romVal s ≤ romVal rest :=
                (lzRel_none_iff hrt (length_branch hlen' false)).mp hin
              have hle := hbF tl (tail_mem_branch ha rfl)
              rw [romVal_cons_lt_cons ha2.symm] at hgt
              exact absurd hgt (not_lt.mpr hle)
            | true =>
              rw [romVal_cons_le_cons (by rw [hmlen, ha2])]
              exact hm'min tl (tail_mem_branch ha rfl)
          · rcases hlzb : lzRel (branch A true) m' with _ | t
            · rw [hstep, heq]
              have h2 : lzRel A (true :: m') = none := by simp [lzRel, hlzb]
              rw [hlzb, h2]
            · rw [hstep, heq]
              have h2 : lzRel A (true :: m') = some (t + 1) := by simp [lzRel, hlzb]
              rw [hlzb, h2]
              show some (true :: m', pos + 1 + t) = some (true :: m', pos + (t + 1))
              have h3 : pos + 1 + t = pos + (t + 1) := by omega
              rw [h3]
      · rw [if_neg hcond] at hj
        cases hj
    · -- the last 0-fork lies deeper: replay this node's bit and recurse
      have hlz : lzRel A (b :: rest) = some (j0 + 1) := by simp [lzRel, hin]
      rw [hlz] at hj
      injection hj with hj0
      subst hj0
      rcases hidb : (A.all fun r => hd r) with _ | _ <;>
        rcases hcmpb : (A.all fun r => !hd r) with _ | _
      · -- discrepancy at this node: the retained bit is replayed
        have hforkT := isForkB_true_of_not_all hidb hcmpb
        have hstep : passAux A (b :: rest) (j0 + 1 + 1) pos lz =
            match passAux (branch A b) rest (j0 + 1) (pos + 1) (if b = false then pos else lz) with
            | none => none
            | some (rest2, lzf) => some (b :: rest2, lzf) := by
          simp [passAux, hidb, hcmpb]
        obtain ⟨m', hm'A, hm'gt, hm'min, heq⟩ :=
          passAux_succ rest (branch A b) j0 (pos + 1) (if b = false then pos else lz) hrt
            (nodup_branch hlen' hnd b) (length_branch hlen' b) hin
        exact succ_glue hlen' hm'A hm'gt hm'min hstep heq (by cases b <;> simp [hforkT])
      · -- every active device reads bit 0, so this node's bit is the forced 0
        have hb : b = false := by
          have := List.all_eq_true.mp hcmpb _ hr
          simpa using this
        subst hb
        have hstep : passAux A (false :: rest) (j0 + 1 + 1) pos lz =
            match passAux (branch A false) rest (j0 + 1) (pos + 1) lz with
            | none => none
            | some (rest2, lzf) => some (false :: rest2, lzf) := by
          simp [passAux, hidb, hcmpb]
        obtain ⟨m', hm'A, hm'gt, hm'min, heq⟩ :=
          passAux_succ rest (branch A false) j0 (pos + 1) lz hrt
            (nodup_branch hlen' hnd false) (length_branch hlen' false) hin
        exact succ_glue hlen' hm'A hm'gt hm'min hstep heq
          (by simp [isForkB_false_of_allfalse hcmpb])
      · -- every active device reads bit 1, so this node's bit is the forced 1
        have hb : b = true := by
          have := List.all_eq_true.mp hidb _ hr
          simpa using this
        subst hb
        have hstep : passAux A (true :: rest) (j0 + 1 + 1) pos lz =
            match passAux (branch A true) rest (j0 + 1) (pos + 1) lz with
            | none => none
            | some (rest2, lzf) => some (true :: rest2, lzf) := by
          simp [passAux, hidb, hcmpb]
        obtain ⟨m', hm'A, hm'gt, hm'min, heq⟩ :=
          passAux_succ rest (branch A true) j0 (pos + 1) lz hrt
            (nodup_branch hlen' hnd true) (length_branch hlen' true) hin
        exact succ_glue hlen' hm'A hm'gt hm'min hstep heq (by simp)
      · have h1 := List.all_eq_true.mp hidb _ hr
        have h2 := List.all_eq_true.mp hcmpb _ hr
        rw [hd_cons] at h1 h2
        rw [h1] at h2
        cases h2

end OneWire

namespace OneWire

lemma filter_length_lt {S : List Rom} (p q : Rom → Bool) {m : Rom} (hm : m ∈ S)
    (himp : ∀ a ∈ S, p a = true → q a = true) (hq : q m = true) (hp : p m = false) :
    (S.filter p).length < (S.filter q).length := by
  induction S with
  | nil => cases hm
  | cons x S ih =>
    rw [List.filter_cons, List.filter_cons]
    have himp' : ∀ a ∈ S, p a = true → q a = true :=
      fun a ha => himp a (List.mem_cons_of_mem _ ha)
    have hle : (S.filter p).length ≤ (S.filter q).length := by
      rw [← List.countP_eq_length_filter, ← List.countP_eq_length_filter]
      exact List.countP_mono_left himp'
    rcases List.mem_cons.mp hm with rfl | hmS
    · rw [hp, hq]
      simpa using Nat.lt_succ_of_le hle
    · have hlt := ih hmS himp'
      cases hpx : p x <;> cases hqx : q x
      · simpa using hlt
      · simpa using Nat.lt_succ_of_lt hlt
      · exact absurd (himp x (List.mem_cons_self x S) hpx) (by rw [hqx]; intro h; cases h)
      · simpa using hlt

/-- Number of devices whose ROM is strictly above `r` in search order. -/
def countGT (S : List Rom) (r : Rom) : Nat :=
  (S.filter fun a => decide (romVal r < romVal a)).length

lemma countGT_lt_of_succ {S : List Rom} {r m : Rom} (hm : m ∈ S) (hgt : romVal r < romVal m) :
    countGT S m < countGT S r := by
  apply filter_length_lt _ _ hm
  · intro a _ hpa
    rw [decide_eq_true_eq] at hpa ⊢
    exact lt_trans hgt hpa
  · rw [decide_eq_true_eq]
    exact hgt
  · simp

lemma countGT_pos {S : List Rom} {r a : Rom} (ha : a ∈ S) (hgt : romVal r < romVal a) :
    0 < countGT S r := by
  have hmem : a ∈ S.filter fun x => decide (romVal r < romVal x) := by
    rw [List.mem_filter, decide_eq_true_eq]
    exact ⟨ha, hgt⟩
  exact List.length_pos.mpr (List.ne_nil_of_mem hmem)

lemma countGT_le_length (S : List Rom) (r : Rom) : countGT S r ≤ S.length :=
  List.length_filter_le _ S

/-- Unfold one round of the outer search loop once the pass result is known. -/
lemma scanAux_step {S : List Rom} {fuel : Nat} {prev : Rom} {l : Nat} {acc : List Rom}
    {m : Rom} {lz : Nat} (h : passAux S prev l 1 0 = some (m, lz)) :
    scanAux S (fuel + 1) prev l acc =
      match lz with
      | 0 => ((if crcValid m then acc ++ [m] else acc), true)
      | _ + 1 => scanAux S fuel m lz (if crcValid m then acc ++ [m] else acc) := by
  simp only [scanAux, h]
  cases lz <;> rfl

end OneWire

namespace OneWire

lemma scanAux_spec : ∀ (fuel : Nat) (S : List Rom) (r : Rom) (j : Nat) (acc : List Rom),
    S.Nodup → (∀ a ∈ S, a.length = r.length) → r ∈ S → lzRel S r = some j →
    countGT S r ≤ fuel →
    ∃ out, scanAux S fuel r (j + 1) acc = (acc ++ out, true) ∧
      (∀ x, x ∈ out ↔ (x ∈ S ∧ romVal r < romVal x ∧ crcValid x = true)) ∧
      out.Pairwise (fun x y => romVal x < romVal y)
  | 0, S, r, j, acc, hnd, hlen, hr, hj, hcount => by
    exfalso
    have hng : ¬ (∀ a ∈ S, romVal a ≤ romVal r) := by
      intro hall
      rw [(lzRel_none_iff hr hlen).mpr hall] at hj
      cases hj
    push_neg at hng
    obtain ⟨a, ha, hgt⟩ := hng
    have := countGT_pos ha (not_le.mp (by exact fun h => absurd h (not_le.mpr hgt)))
    omega
  | fuel + 1, S, r, j, acc, hnd, hlen, hr, hj, hcount => by
    obtain ⟨m, hmS, hgt, hmin, heq⟩ := passAux_succ r S j 1 0 hr hnd hlen hj
    have hlenm : ∀ a ∈ S, a.length = m.length := by
      intro a ha
      rw [hlen a ha, ← hlen m hmS]
    rcases hlzm : lzRel S m with _ | t
    · -- m is the maximal ROM: the loop stops with last_discrepancy = 0
      rw [hlzm] at heq
      have heq' : passAux S r (j + 1) 1 0 = some (m, 0) := heq
      rw [scanAux_step heq']
      have hmax : ∀ a ∈ S, romVal a ≤ romVal m := (lzRel_none_iff hmS hlenm).mp hlzm
      have huniq : ∀ x ∈ S, romVal r < romVal x → x = m := by
        intro x hxS hxgt
        exact romVal_inj (by rw [hlenm x hxS]) (le_antisymm (hmax x hxS) (hmin x hxS hxgt))
      rcases hcrc : crcValid m with _ | _
      · refine ⟨[], by simp [hcrc], ?_, List.Pairwise.nil⟩
        intro x
        simp only [List.not_mem_nil, false_iff]
        rintro ⟨hxS, hxgt, hxcrc⟩
        rw [huniq x hxS hxgt] at hxcrc
        rw [hcrc] at hxcrc
        cases hxcrc
      · refine ⟨[m], by simp [hcrc], ?_, by simp⟩
        intro x
        simp only [List.mem_singleton]
        constructor
        · rintro rfl
          exact ⟨hmS, hgt, hcrc⟩
        · rintro ⟨hxS, hxgt, _⟩
          exact huniq x hxS hxgt
    · -- more devices above m: recurse with the new pivot
      rw [hlzm] at heq
      have heq' : passAux S r (j + 1) 1 0 = some (m, 1 + t) := heq
      rw [Nat.add_comm 1 t] at heq'
      rw [scanAux_step heq']
      have hcnt : countGT S m ≤ fuel := by
        have := countGT_lt_of_succ hmS hgt
        omega
      have hnm : ∀ x ∈ S, romVal r < romVal x → x ≠ m → romVal m < romVal x := by
        intro x hxS hxgt hxm
        rcases lt_or_eq_of_le (hmin x hxS hxgt) with hlt | heqv
        · exact hlt
        · exact absurd (romVal_inj (hlenm x hxS).symm heqv).symm hxm
      rcases hcrc : crcValid m with _ | _
      · obtain ⟨out', hout'eq, hout'mem, hout'pw⟩ :=
          scanAux_spec fuel S m t acc hnd hlenm hmS hlzm hcnt
        refine ⟨out', ?_, ?_, hout'pw⟩
        · simpa using hout'eq
        · intro x
          rw [hout'mem x]
          constructor
          · rintro ⟨hxS, hxgt, hxcrc⟩
            exact ⟨hxS, lt_trans hgt hxgt, hxcrc⟩
          · rintro ⟨hxS, hxgt, hxcrc⟩
            refine ⟨hxS, ?_, hxcrc⟩
            apply hnm x hxS hxgt
            intro hxm
            rw [hxm, hcrc] at hxcrc
            cases hxcrc
      · obtain ⟨out', hout'eq, hout'mem, hout'pw⟩ :=
          scanAux_spec fuel S m t (acc ++ [m]) hnd hlenm hmS hlzm hcnt
        refine ⟨m :: out', ?_, ?_, ?_⟩
        · simpa using hout'eq
        · intro x
          simp only [List.mem_cons]
          constructor
          · rintro (rfl | hx2)
            · exact ⟨hmS, hgt, hcrc⟩
            · obtain ⟨hxS, hxgt, hxcrc⟩ := (hout'mem x).mp hx2
              exact ⟨hxS, lt_trans hgt hxgt, hxcrc⟩
          · rintro ⟨hxS, hxgt, hxcrc⟩
            by_cases hxm : x = m
            · exact Or.inl hxm
            · exact Or.inr ((hout'mem x).mpr ⟨hxS, hnm x hxS hxgt hxm, hxcrc⟩)
        · rw [List.pairwise_cons]
          refine ⟨?_, hout'pw⟩
          intro b hb
          exact ((hout'mem b).mp hb).2.1

end OneWire

namespace OneWire

lemma scanList_spec (S : List Rom) (hnd : S.Nodup) (hlen : ∀ a ∈ S, a.length = 64)
    (hne : S ≠ []) :
    ∃ out, scanList S = (out, true) ∧
      (∀ x, x ∈ out ↔ (x ∈ S ∧ crcValid x = true)) ∧
      out.Pairwise (fun x y => romVal x < romVal y) := by
  have hlen0 : ∀ a ∈ S, a.length = zeroRom.length := by
    intro a ha
    rw [hlen a ha]
    simp [zeroRom]
  obtain ⟨m, hmS, hmin, heq⟩ := passAux_min zeroRom S 1 0 hne hlen0
  have hlenm : ∀ a ∈ S, a.length = m.length := fun a ha => by
    rw [hlen a ha, hlen m hmS]
  show ∃ out, scanAux S (S.length + 1) zeroRom 0 [] = (out, true) ∧ _
  rcases hlzm : lzRel S m with _ | t
  · rw [hlzm] at heq
    have heq' : passAux S zeroRom 0 1 0 = some (m, 0) := heq
    rw [scanAux_step heq']
    have hmax : ∀ a ∈ S, romVal a ≤ romVal m := (lzRel_none_iff hmS hlenm).mp hlzm
    have huniq : ∀ x ∈ S, x = m := by
      intro x hxS
      exact romVal_inj (by rw [hlenm x hxS]) (le_antisymm (hmax x hxS) (hmin x hxS))
    rcases hcrc : crcValid m with _ | _
    · refine ⟨[], by simp, ?_, List.Pairwise.nil⟩
      intro x
      simp only [List.not_mem_nil, false_iff]
      rintro ⟨hxS, hxcrc⟩
      rw [huniq x hxS, hcrc] at hxcrc
      cases hxcrc
    · refine ⟨[m], by simp, ?_, by simp⟩
      intro x
      simp only [List.mem_singleton]
      constructor
      · rintro rfl
        exact ⟨hmS, hcrc⟩
      · rintro ⟨hxS, _⟩
        exact huniq x hxS
  · rw [hlzm] at heq
    have heq' : passAux S zeroRom 0 1 0 = some (m, 1 + t) := heq
    rw [Nat.add_comm 1 t] at heq'
    rw [scanAux_step heq']
    have hcnt : countGT S m ≤ S.length := countGT_le_length S m
    have hnm : ∀ x ∈ S, x ≠ m → romVal m < romVal x := by
      intro x hxS hxm
      rcases lt_or_eq_of_le (hmin x hxS) with hlt | heqv
      · exact hlt
      · exact absurd (romVal_inj (hlenm x hxS).symm heqv).symm hxm
    rcases hcrc : crcValid m with _ | _
    · obtain ⟨out', hout'eq, hout'mem, hout'pw⟩ :=
        scanAux_spec S.length S m t [] hnd hlenm hmS hlzm hcnt
      refine ⟨out', by simpa using hout'eq, ?_, hout'pw⟩
      intro x
      rw [hout'mem x]
      constructor
      · rintro ⟨hxS, _, hxcrc⟩
        exact ⟨hxS, hxcrc⟩
      · rintro ⟨hxS, hxcrc⟩
        refine ⟨hxS, ?_, hxcrc⟩
        apply hnm x hxS
        intro hxm
        rw [hxm, hcrc] at hxcrc
        cases hxcrc
    · obtain ⟨out', hout'eq, hout'mem, hout'pw⟩ :=
        scanAux_spec S.length S m t [m] hnd hlenm hmS hlzm hcnt
      refine ⟨m :: out', by simpa using hout'eq, ?_, ?_⟩
      · intro x
        simp only [List.mem_cons]
        constructor
        · rintro (rfl | hx2)
          · exact ⟨hmS, hcrc⟩
          · obtain ⟨hxS, _, hxcrc⟩ := (hout'mem x).mp hx2
            exact ⟨hxS, hxcrc⟩
        · rintro ⟨hxS, hxcrc⟩
          by_cases hxm : x = m
          · exact Or.inl hxm
          · exact Or.inr ((hout'mem x).mpr ⟨hxS, hnm x hxS hxm, hxcrc⟩)
      · rw [List.pairwise_cons]
        refine ⟨?_, hout'pw⟩
        intro b hb
        exact ((hout'mem b).mp hb).2.1

/-- Bits of one byte, LSB first. -/
def byteBits (n : Nat) : List Bool :=
  (List.range 8).map fun k => decide (n / 2 ^ k % 2 = 1)

/-- Assemble a ROM from its eight bytes. -/
def romOfBytes (bs : List Nat) : Rom := (bs.map byteBits).flatten

/-- Example DS18B20-family device (last byte is the CRC8 of the first seven). -/
def romA : Rom := romOfBytes [0x28, 0xFF, 0x12, 0x34, 0x56, 0x78, 0x9A,
  calc_crc8 [0x28, 0xFF, 0x12, 0x34, 0x56, 0x78, 0x9A]]

/-- Example DS2413-family device. -/
def romB : Rom := romOfBytes [0x3A, 0, 0, 0, 0, 0, 0,
  calc_crc8 [0x3A, 0, 0, 0, 0, 0, 0]]

end OneWire

/-- C1: on a simulated 1-Wire bus carrying any nonempty set of devices with
distinct, 64-bit, CRC8-valid ROM codes, the ROM search of `_scan_bus` runs to
completion and registers exactly those devices — no duplicates, no omissions —
and every registered ROM passes the CRC8 check (polynomial 0x8C, LSB first)
of its first 7 bytes against its 8th. -/
theorem claim_C1_rom_search (S old : List OneWire.Rom) (hne : S ≠ []) (hnd : S.Nodup)
    (hlen : ∀ r ∈ S, r.length = 64) (hcrc : ∀ r ∈ S, OneWire.crcValid r = true) :
    (OneWire.scanList S).2 = true ∧ (OneWire.scanBus S old).Nodup ∧
      (OneWire.scanBus S old).Perm S ∧
      ∀ x ∈ OneWire.scanBus S old, OneWire.crcValid x = true := by
  obtain ⟨out, houteq, houtmem, houtpw⟩ := OneWire.scanList_spec S hnd hlen hne
  have hempty : S.isEmpty = false := by
    cases S
    · exact absurd rfl hne
    · rfl
  have hbus : OneWire.scanBus S old = out := by
    rw [OneWire.scanBus, hempty, houteq]
    rfl
  have hnodup : out.Nodup := houtpw.imp fun hlt => by
    intro hxy
    rw [hxy] at hlt
    exact lt_irrefl _ hlt
  refine ⟨by rw [houteq], by rw [hbus]; exact hnodup, ?_, ?_⟩
  · rw [hbus]
    apply (List.perm_ext_iff_of_nodup hnodup hnd).mpr
    intro a
    rw [houtmem a]
    exact ⟨fun h => h.1, fun h => ⟨h, hcrc a h⟩⟩
  · intro x hx
    rw [hbus] at hx
    exact ((houtmem x).mp hx).2

set_option maxRecDepth 40000 in
/-- Witness for C1 at a concrete two-device bus. -/
theorem claim_C1_rom_search_witness :
    (([OneWire.romA, OneWire.romB] : List OneWire.Rom) ≠ [] ∧
      ([OneWire.romA, OneWire.romB] : List OneWire.Rom).Nodup ∧
      (∀ r ∈ ([OneWire.romA, OneWire.romB] : List OneWire.Rom), r.length = 64) ∧
      (∀ r ∈ ([OneWire.romA, OneWire.romB] : List OneWire.Rom),
        OneWire.crcValid r = true)) ∧
    ((OneWire.scanList [OneWire.romA, OneWire.romB]).2 = true ∧
      (OneWire.scanBus [OneWire.romA, OneWire.romB] []).Nodup ∧
      (OneWire.scanBus [OneWire.romA, OneWire.romB] []).Perm
        [OneWire.romA, OneWire.romB] ∧
      ∀ x ∈ OneWire.scanBus [OneWire.romA, OneWire.romB] [],
        OneWire.crcValid x = true) :=
  ⟨⟨by decide, by decide, by decide, by decide⟩,
    claim_C1_rom_search [OneWire.romA, OneWire.romB] [] (by decide) (by decide)
      (by decide) (by decide)⟩

/-- C6 counterexample: a scan issued with no device attached aborts (no
presence pulse / both search bits read 1) before the `self.devices = devices`
assignment, so a previously registered device stays in the registry even
though the scan enumerated nothing — the registry is not rebuilt wholesale on
that scan. -/
theorem claim_C6_counterexample :
    OneWire.scanBus [] [OneWire.romA] = [OneWire.romA] ∧
      ([OneWire.romA] : List OneWire.Rom) ≠ [] :=
  ⟨rfl, by simp⟩

/-- C6 (amended): after every scan that runs to completion (in particular any
scan over a nonempty bus of distinct 64-bit ROMs), the registry is rebuilt
wholesale: the result is independent of the previous registry contents and
holds exactly the CRC-valid devices enumerated by that scan.  A scan that
aborts early (no presence pulse, e.g. an empty bus) leaves the previous
registry in place. -/
theorem claim_C6_registry_rebuilt (S old old' : List OneWire.Rom) (hne : S ≠ [])
    (hnd : S.Nodup) (hlen : ∀ r ∈ S, r.length = 64) :
    OneWire.scanBus S old = OneWire.scanBus S old' ∧
      (∀ x, x ∈ OneWire.scanBus S old ↔ (x ∈ S ∧ OneWire.crcValid x = true)) := by
  obtain ⟨out, houteq, houtmem, _⟩ := OneWire.scanList_spec S hnd hlen hne
  have hempty : S.isEmpty = false := by
    cases S
    · exact absurd rfl hne
    · rfl
  have hbus : ∀ o : List OneWire.Rom, OneWire.scanBus S o = out := by
    intro o
    rw [OneWire.scanBus, hempty, houteq]
    rfl
  refine ⟨by rw [hbus old, hbus old'], ?_⟩
  intro x
  rw [hbus old]
  exact houtmem x

set_option maxRecDepth 40000 in
/-- Witness for the amended C6 at a concrete one-device bus with two distinct
stale registries. -/
theorem claim_C6_registry_rebuilt_witness :
    (([OneWire.romB] : List OneWire.Rom) ≠ [] ∧
      ([OneWire.romB] : List OneWire.Rom).Nodup ∧
      (∀ r ∈ ([OneWire.romB] : List OneWire.Rom), r.length = 64)) ∧
    (OneWire.scanBus [OneWire.romB] [OneWire.romA] = OneWire.scanBus [OneWire.romB] [] ∧
      (∀ x, x ∈ OneWire.scanBus [OneWire.romB] [OneWire.romA] ↔
        (x ∈ ([OneWire.romB] : List OneWire.Rom) ∧ OneWire.crcValid x = true))) :=
  ⟨⟨by decide, by decide, by decide⟩,
    claim_C6_registry_rebuilt [OneWire.romB] [OneWire.romA] [] (by decide) (by decide)
      (by decide)⟩

namespace OneWire

/-- `MAX_FAILURES` from oneWireBus.py. -/
def MAX_FAILURES : Nat := 3

/-- `TIMEOUT_DURATION` from oneWireBus.py (300 s). -/
def TIMEOUT_DURATION : Nat := 300

/-- `OneWireBus._increment_failures`: reads the stored count (discarding the
stored timestamp), then writes back the current time and `count + 1`. -/
def increment_failures (now : Nat) (c : Option (Nat × Nat)) : Option (Nat × Nat) :=
  some (now, (match c with | some (_, k) => k | none => 0) + 1)

/-- The tail of `select_device` after the timeout-cache check: reset the wire,
then write the match-ROM command and the eight ROM bytes; any failure
increments the failure entry. -/
def select_attempt (now : Nat) (resetOk : Bool) (romWrites : List Bool)
    (c : Option (Nat × Nat)) : Bool × Option (Nat × Nat) :=
  if !resetOk then (false, increment_failures now c)
  else if !(romWrites.all id) then (false, increment_failures now c)
  else (true, c)

/-- `OneWireBus.select_device` restricted to one device.  `found1` is the
initial `device_id in self.devices` test, `found2` the same test after the
rescan triggered when `found1` fails; `resetOk` is the `wire_reset` result and
`romWrites` the eight `wire_write_byte` results; `c` is the device's
timeout-cache entry `(timestamp, failures)`; times are `Nat` seconds. -/
def select_device (found1 found2 : Bool) (now : Nat) (resetOk : Bool)
    (romWrites : List Bool) (c : Option (Nat × Nat)) : Bool × Option (Nat × Nat) :=
  if !found1 && !found2 then (false, c)
  else
    match c with
    | some (ts, f) =>
      if MAX_FAILURES ≤ f ∧ now - ts < TIMEOUT_DURATION then (false, some (ts, f))
      else if TIMEOUT_DURATION ≤ now - ts then select_attempt now resetOk romWrites none
      else select_attempt now resetOk romWrites (some (ts, f))
    | none => select_attempt now resetOk romWrites none

end OneWire

/-- C2 counterexample: the claim asserts the timeout-cache entry is deleted
after a successful recovery, but a successful `select_device` call never
touches the entry: with a live entry `(0, 1)` (one earlier failure) a fully
successful call at `now = 10` returns success and leaves the entry — and its
failure count — in place. -/
theorem claim_C2_counterexample :
    OneWire.select_device true true 10 true (List.replicate 8 true) (some (0, 1)) =
      (true, some (0, 1)) := by decide

/-- C2 (amended): once the failure entry reaches 3 failures, every call within
300 s of the last failure timestamp fails without touching hardware or the
entry; a call that finds the 300 s window expired deletes the entry and, if
the device responds, succeeds with the entry gone.  However the entry is
deleted only by that expiry check: a successful selection below the failure
threshold leaves the entry (timestamp and count) unchanged, and each hardware
failure re-stamps the entry with the current time and the incremented count
(the count is never reset by successes, so the 3 failures need not be
consecutive). -/
theorem claim_C2_timeout_cache (found1 found2 : Bool) (now ts f : Nat)
    (resetOk : Bool) (romWrites : List Bool) :
    (3 ≤ f → now - ts < 300 →
      OneWire.select_device found1 found2 now resetOk romWrites (some (ts, f)) =
        (false, some (ts, f))) ∧
    (found1 = true → resetOk = true → romWrites.all id = true → 300 ≤ now - ts →
      OneWire.select_device found1 found2 now resetOk romWrites (some (ts, f)) =
        (true, none)) ∧
    (found1 = true → resetOk = true → romWrites.all id = true → f < 3 →
      now - ts < 300 →
      OneWire.select_device found1 found2 now resetOk romWrites (some (ts, f)) =
        (true, some (ts, f))) ∧
    (found1 = true → resetOk = false → f < 3 → now - ts < 300 →
      OneWire.select_device found1 found2 now resetOk romWrites (some (ts, f)) =
        (false, some (now, f + 1))) ∧
    (found1 = true → resetOk = false → 300 ≤ now - ts →
      OneWire.select_device found1 found2 now resetOk romWrites (some (ts, f)) =
        (false, some (now, 1))) := by
  refine ⟨?_, ?_, ?_, ?_, ?_⟩
  · intro hf hlt
    cases found1 <;> cases found2 <;>
      simp [OneWire.select_device, OneWire.MAX_FAILURES, OneWire.TIMEOUT_DURATION, hf, hlt]
  · rintro rfl hr hw hexp
    have hnl : ¬(3 ≤ f ∧ now - ts < 300) := by omega
    simp [OneWire.select_device, OneWire.select_attempt, OneWire.MAX_FAILURES,
      OneWire.TIMEOUT_DURATION, hnl, hexp, hr, hw]
  · rintro rfl hr hw hf hlt
    have hnl : ¬(3 ≤ f ∧ now - ts < 300) := by omega
    have hne : ¬(300 ≤ now - ts) := by omega
    simp [OneWire.select_device, OneWire.select_attempt, OneWire.MAX_FAILURES,
      OneWire.TIMEOUT_DURATION, hnl, hne, hr, hw]
  · rintro rfl hr hf hlt
    have hnl : ¬(3 ≤ f ∧ now - ts < 300) := by omega
    have hne : ¬(300 ≤ now - ts) := by omega
    simp [OneWire.select_device, OneWire.select_attempt, OneWire.increment_failures,
      OneWire.MAX_FAILURES, OneWire.TIMEOUT_DURATION, hnl, hne, hr]
  · rintro rfl hr hexp
    have hnl : ¬(3 ≤ f ∧ now - ts < 300) := by omega
    simp [OneWire.select_device, OneWire.select_attempt, OneWire.increment_failures,
      OneWire.MAX_FAILURES, OneWire.TIMEOUT_DURATION, hnl, hexp, hr]

/-- Witness for the amended C2: a locked-out entry (3 failures at t=100)
refuses selection at t=150, and a call at t=401 succeeds deleting the entry. -/
theorem claim_C2_timeout_cache_witness :
    (3 ≤ 3 ∧ 150 - 100 < 300 ∧
      OneWire.select_device true true 150 true (List.replicate 8 true) (some (100, 3)) =
        (false, some (100, 3))) ∧
    (300 ≤ 401 - 100 ∧
      OneWire.select_device true true 401 true (List.replicate 8 true) (some (100, 3)) =
        (true, none)) :=
  ⟨⟨by decide, by decide,
    (claim_C2_timeout_cache true true 150 100 3 true (List.replicate 8 true)).1
      (by decide) (by decide)⟩,
   ⟨by decide,
    (claim_C2_timeout_cache true true 401 100 3 true (List.replicate 8 true)).2.1
      rfl rfl (by decide) (by decide)⟩⟩

namespace DS2413

/-- `DS2413._read_ports` for one call: `selOk` is the `select_device` result
and `stateByte` the `wire_read_byte` result (a byte in `[0, 255]`).  The
complement self-check `(state >> 4) != (~state & 0x0F)` becomes
`s / 16 ≠ 15 - s % 16`; the two ports are bits 0 and 2. -/
def read_ports (selOk : Bool) (stateByte : Option Nat) : Option (Bool × Bool) :=
  if !selOk then none
  else match stateByte with
    | none => none
    | some s =>
      if s / 16 ≠ 15 - s % 16 then none
      else some (s % 2 == 1, s / 4 % 2 == 1)

/-- `DS2413.set_state`, with the bus interactions supplied in call order:
`s0` the initial select; `(s1, b0)` the first `_read_ports`; `c0` the confirm
byte of attempt 0; `(s2, b1)` the verification `_read_ports` of attempt 0;
`s3` the re-select of attempt 1; `c1` its confirm byte; `(s4, b2)` its
verification `_read_ports`.  The `wire_write_byte` results are ignored by the
source and therefore not modelled.  Returns the result together with the port
pair left in the cache by `_cache_state` (`none` when nothing was cached).
Note the source loop falls through to `return True` after both attempts, and
a confirmed attempt 0 still runs attempt 1 (no `break` after the cache
update). -/
def set_state (s0 s1 : Bool) (b0 : Option Nat) (c0 : Option Nat) (s2 : Bool)
    (b1 : Option Nat) (s3 : Bool) (c1 : Option Nat) (s4 : Bool) (b2 : Option Nat)
    (channel : Nat) (value : Bool) : Bool × Option (Bool × Bool) :=
  if !s0 then (false, none)
  else match read_ports s1 b0 with
  | none => (false, none)
  | some (ca, cb) =>
    let na := if channel == 0 then value else ca
    let nb := if channel == 1 then value else cb
    let sb := (if !na then 1 else 0) + (if !nb then 4 else 0)
    let expected : Bool × Bool := (sb % 2 == 1, sb / 4 % 2 == 1)
    if c0 == some 0xAA then
      if !s3 then (false, some expected)
      else if c1 == some 0xAA then (true, some expected)
      else if read_ports s4 b2 == some expected then (true, some expected)
      else (true, some expected)
    else if read_ports s2 b1 == some expected then (true, some expected)
    else if !s3 then (false, none)
    else if c1 == some 0xAA then (true, some expected)
    else if read_ports s4 b2 == some expected then (true, some expected)
    else (true, none)

end DS2413

/-- C3 (code bug): turning channel 0 on while the hardware never acknowledges
(confirm byte 0x00 on both attempts) and both verification re-reads return the
unchanged old state 0x0F (both ports still high, complement bits valid) —
so neither the acknowledgement nor the verification ever succeeded — yet
`set_state` returns `True`: after the second failed attempt the `for` loop
ends and the method falls through to `return True`, reporting success without
even a cached state update. -/
theorem claim_C3_set_state_bug :
    DS2413.set_state true true (some 0x0F) (some 0x00) true (some 0x0F) true
      (some 0x00) true (some 0x0F) 0 true = (true, none) := by decide

namespace SMBusProxy

/-- One shift round of `SMBus._calc_crc8` (polynomial 0x07, MSB first); this
is also the SMBus PEC computed by `Crc8Smbus.calc` in dm117.py. -/
def calc_crc8_step (crc : Nat) : Nat :=
  if crc / 128 % 2 = 1 then ((crc * 2) ^^^ 0x07) % 256 else (crc * 2) % 256

/-- Fold one byte into the CRC8 state. -/
def calc_crc8_byte (crc b : Nat) : Nat :=
  (List.range 8).foldl (fun c _ => calc_crc8_step c) (crc ^^^ b)

/-- `SMBus._calc_crc8`: CRC8, polynomial 0x07, init 0x00. -/
def calc_crc8 (data : List Nat) : Nat :=
  data.foldl calc_crc8_byte 0

/-- `SMBus._receive_frame`, applied to the raw frame read from the socket:
the length byte (equal to the payload's length), the payload, and the CRC
byte.  A mismatch raises `SMBusProxyError`, modelled as `none`. -/
def receive_frame (payload : List Nat) (crcByte : Nat) : Option (List Nat) :=
  if crcByte == calc_crc8 (payload.length :: payload) then some payload else none

/-- The maintenance-marker test of `_send_command`
(`len(response) >= 3 and response[:3] == b"\xff\xee\x01"`). -/
def isMaintenance (resp : List Nat) : Bool :=
  decide (3 ≤ resp.length) && resp.take 3 == [0xFF, 0xEE, 0x01]

/-- Outcome of one attempt of `_send_command`.  `frames n = none` models a
timeout or socket error on attempt `n`; otherwise the attempt reads the given
frame, fails on CRC mismatch, and treats a maintenance response as a failure
with backoff.  All three failure modes raise and are retried. -/
def attempt_result (fr : Option (List Nat × Nat)) : Option (List Nat) :=
  match fr with
  | none => none
  | some (p, crc) =>
    match receive_frame p crc with
    | none => none
    | some resp => if isMaintenance resp then none else some resp

/-- `SMBus._send_command`: up to three attempts; the first clean response
payload is returned, and the failure of the third attempt is re-raised
(`none`).  The trailing `return b""` of the source is unreachable. -/
def send_command (frames : Nat → Option (List Nat × Nat)) : Option (List Nat) :=
  match attempt_result (frames 0) with
  | some r => some r
  | none =>
    match attempt_result (frames 1) with
    | some r => some r
    | none => attempt_result (frames 2)

lemma attempt_result_some {fr : Option (List Nat × Nat)} {r : List Nat}
    (h : attempt_result fr = some r) :
    fr = some (r, calc_crc8 (r.length :: r)) := by
  rcases fr with _ | ⟨p, c⟩
  · cases h
  · rcases hrf : receive_frame p c with _ | resp
    · have h' : (none : Option (List Nat)) = some r := by
        rw [← h]
        unfold attempt_result
        show _ = match receive_frame p c with
          | none => none
          | some resp => if isMaintenance resp = true then none else some resp
        rw [hrf]
      cases h'
    · have h' : (if isMaintenance resp then none else some resp) = some r := by
        rw [← h]
        unfold attempt_result
        show _ = match receive_frame p c with
          | none => none
          | some resp2 => if isMaintenance resp2 = true then none else some resp2
        rw [hrf]
      rcases hm : isMaintenance resp with _ | _
      · rw [hm] at h'
        simp only [Bool.false_eq_true, if_false, Option.some.injEq] at h'
        subst h'
        unfold receive_frame at hrf
        by_cases hc : (c == calc_crc8 (p.length :: p)) = true
        · rw [if_pos hc] at hrf
          injection hrf with hpr
          subst hpr
          rw [beq_iff_eq] at hc
          rw [hc]
        · rw [if_neg hc] at hrf
          cases hrf
      · rw [hm] at h'
        simp at h'

lemma attempt_result_none {fr : Option (List Nat × Nat)}
    (h : ∀ p c, fr = some (p, c) → c ≠ calc_crc8 (p.length :: p)) :
    attempt_result fr = none := by
  rcases fr with _ | ⟨p, c⟩
  · rfl
  · have hne := h p c rfl
    simp only [attempt_result, receive_frame]
    rw [if_neg (by simpa using hne)]

end SMBusProxy

/-- C4: the transport never hands a corrupted payload to the caller.  If
`_send_command` returns a payload, then one of the three attempts received
exactly that payload in a frame whose trailing CRC8 byte equals the CRC8 of
the length-prefixed payload; and whenever every received frame carries a
mismatched CRC byte, all three attempts fail and the `SMBusProxyError` is
raised (modelled as `none`). -/
theorem claim_C4_transport_crc (frames : Nat → Option (List Nat × Nat)) :
    (∀ p, SMBusProxy.send_command frames = some p →
      ∃ n, n < 3 ∧ frames n = some (p, SMBusProxy.calc_crc8 (p.length :: p))) ∧
    ((∀ n, n < 3 → ∀ p c, frames n = some (p, c) →
        c ≠ SMBusProxy.calc_crc8 (p.length :: p)) →
      SMBusProxy.send_command frames = none) := by
  constructor
  · intro p hp
    rcases h0 : SMBusProxy.attempt_result (frames 0) with _ | r0
    · rcases h1 : SMBusProxy.attempt_result (frames 1) with _ | r1
      · have hp2 : SMBusProxy.attempt_result (frames 2) = some p := by
          rw [← hp]
          unfold SMBusProxy.send_command
          rw [h0, h1]
        exact ⟨2, by omega, SMBusProxy.attempt_result_some hp2⟩
      · have hs : SMBusProxy.send_command frames = some r1 := by
          unfold SMBusProxy.send_command
          rw [h0, h1]
        rw [hs] at hp
        injection hp with hp1
        subst hp1
        exact ⟨1, by omega, SMBusProxy.attempt_result_some h1⟩
    · have hs : SMBusProxy.send_command frames = some r0 := by
        unfold SMBusProxy.send_command
        rw [h0]
      rw [hs] at hp
      injection hp with hp0
      subst hp0
      exact ⟨0, by omega, SMBusProxy.attempt_result_some h0⟩
  · intro hbad
    unfold SMBusProxy.send_command
    rw [SMBusProxy.attempt_result_none (hbad 0 (by omega)),
      SMBusProxy.attempt_result_none (hbad 1 (by omega)),
      SMBusProxy.attempt_result_none (hbad 2 (by omega))]

/-- Witness for C4: three frames each carrying payload `[5]` with CRC byte 0,
while the correct CRC of `[1, 5]` is nonzero: `send` raises. -/
theorem claim_C4_transport_crc_witness :
    (∀ n, n < 3 → ∀ (p : List Nat) (c : Nat), (fun _ => some ([5], 0)) n = some (p, c) →
      c ≠ SMBusProxy.calc_crc8 (p.length :: p)) ∧
    SMBusProxy.send_command (fun _ => some ([5], 0)) = none :=
  ⟨fun _ _ p c hpc => by
      injection hpc with h
      injection h with h1 h2
      subst h1
      subst h2
      decide,
   (claim_C4_transport_crc (fun _ => some ([5], 0))).2
     (fun _ _ p c hpc => by
      injection hpc with h
      injection h with h1 h2
      subst h1
      subst h2
      decide)⟩

namespace DS2438

/-- `CONVERSION_TIME` (0.050 s), in seconds as an exact rational. -/
def CONVERSION_TIME : ℚ := 5 / 100

/-- `CACHE_TIMEOUT` (60 s). -/
def CACHE_TIMEOUT : ℚ := 60

/-- `ConversionState` of ds2438.py. -/
inductive ConvState where
  | idle | vddConfig | vddConvert | vddRead | vadConfig | vadConvert | vadRead
  | tempConvert | tempRead
deriving DecidableEq

/-- `DS2438Reading`; float fields are modelled as exact rationals. -/
structure Reading where
  vdd : ℚ
  vad : ℚ
  vse : ℚ
  temperature : ℚ
  timestamp : ℚ
  cache_timeout : ℚ
deriving DecidableEq

/-- `DS2438State`. -/
structure DState where
  state : ConvState
  last_action : ℚ
  reading : Option Reading
  new_vdd : Option ℚ
  new_vad : Option ℚ
  new_vse : Option ℚ
  new_temp : Option ℚ
deriving DecidableEq

/-- Hardware results consumed by one `_process_state` call: `sel1`/`sel2` the
first and second `select_device` results of the call, `wrA`/`wrB` the first
two checked `wire_write_byte` results, and `bytes` the `wire_read_byte`
results for the 9 scratchpad bytes (`none` = failed read). -/
structure Env where
  sel1 : Bool
  sel2 : Bool
  wrA : Bool
  wrB : Bool
  bytes : List (Option Nat)

/-- All-good hardware delivering the given scratchpad bytes. -/
def envOk (bytes : List (Option Nat)) : Env := ⟨true, true, true, true, bytes⟩

/-- The nine scratchpad byte reads; `none` as soon as one read fails. -/
def readBytes9 (bs : List (Option Nat)) : Option (List Nat) :=
  if (bs.take 9).length == 9 && (bs.take 9).all Option.isSome then
    some ((bs.take 9).map fun o => o.getD 0)
  else none

/-- `DS2438._recall_memory`: a select and two checked command writes. -/
def recall_memory (e : Env) : Bool := e.sel1 && e.wrA && e.wrB

/-- The read half of `DS2438._read_scratchpad`: select, two unchecked command
writes, nine byte reads, then
`verify_crc8(bytes(scratchpad[:-1]), scratchpad[-1])`. -/
def read_scratchpad_raw (sel : Bool) (bs : List (Option Nat)) : Option (List Nat) :=
  if !sel then none
  else match readBytes9 bs with
    | none => none
    | some sp =>
      if OneWire.verify_crc8 (sp.take 8) (sp.getD 8 0) then some sp else none

/-- `DS2438._read_scratchpad`: with `recall_memory=True` the recall sequence
uses the call's first select and both checked writes; the scratchpad read is
then the second select.  Without recall the read uses the first select. -/
def read_scratchpad (doRecall : Bool) (e : Env) : Option (List Nat) :=
  if doRecall then
    if !recall_memory e then none else read_scratchpad_raw e.sel2 e.bytes
  else read_scratchpad_raw e.sel1 e.bytes

/-- `DS2438._read_voltage`: scratchpad with recall, status-bit-3 (VDD enable)
check, then `(sp[4] << 8 | sp[3]) / 100.0`. -/
def read_voltage (e : Env) : Option ℚ :=
  match read_scratchpad true e with
  | none => none
  | some sp =>
    if sp.getD 0 0 / 8 % 2 ≠ 1 then none
    else some (((sp.getD 4 0 * 256 + sp.getD 3 0 : Nat) : ℚ) / 100)

/-- `DS2438._write_config`: a select followed by unchecked writes. -/
def write_config_op (e : Env) : Bool := e.sel1

/-- A conversion start (`_start_voltage_conversion` / `_start_temp_conversion`)
as the call's first select plus checked write. -/
def start_conv1 (e : Env) : Bool := e.sel1 && e.wrA

/-- A conversion start as the call's second select plus checked write. -/
def start_conv2 (e : Env) : Bool := e.sel2 && e.wrB

/-- `DS2438State.start_conversion`. -/
def start_conversion (st : DState) (now : ℚ) : DState :=
  { st with
    state := ConvState.vddConfig
    last_action := now
    new_vdd := none
    new_vad := none
    new_vse := none
    new_temp := none }

/-- The failure exit of `_process_state` (logged error or exception):
reset to idle, report failure; the reading is untouched. -/
def failArm (st : DState) : DState × Bool := ({ st with state := ConvState.idle }, false)

/-- `DS2438._process_state`: at most one phase per call, gated by
`conversion_ready`. -/
def process_state (st : DState) (now : ℚ) (e : Env) : DState × Bool :=
  if st.state = ConvState.idle then (start_conversion st now, true)
  else if now - st.last_action < CONVERSION_TIME then (st, true)
  else match st.state with
    | ConvState.idle => (start_conversion st now, true)
    | ConvState.vddConfig =>
      if write_config_op e then
        ({ st with state := ConvState.vddConvert, last_action := now }, true)
      else failArm st
    | ConvState.vddConvert =>
      if start_conv1 e && start_conv2 e then
        ({ st with state := ConvState.vddRead, last_action := now }, true)
      else failArm st
    | ConvState.vddRead =>
      match read_voltage e with
      | some vdd =>
        ({ st with
          new_vdd := some vdd
          state := ConvState.vadConfig
          last_action := now }, true)
      | none => failArm st
    | ConvState.vadConfig =>
      if write_config_op e then
        ({ st with state := ConvState.vadConvert, last_action := now }, true)
      else failArm st
    | ConvState.vadConvert =>
      if start_conv1 e then
        ({ st with state := ConvState.vadRead, last_action := now }, true)
      else failArm st
    | ConvState.vadRead =>
      match read_scratchpad true e with
      | some sp =>
        ({ st with
          new_vad := some (((sp.getD 4 0 * 256 + sp.getD 3 0 : Nat) : ℚ) / 100)
          new_vse := some (((sp.getD 6 0 * 256 + sp.getD 5 0 : Nat) : ℚ)
            * (2441 / 10000) / 1000)
          state := ConvState.tempConvert
          last_action := now }, true)
      | none => failArm st
    | ConvState.tempConvert =>
      if start_conv1 e then
        ({ st with state := ConvState.tempRead, last_action := now }, true)
      else failArm st
    | ConvState.tempRead =>
      match read_scratchpad false e with
      | some sp =>
        if (((sp.getD 2 0 * 256 + sp.getD 1 0 : Nat) : ℚ) / 256) ≤ 85 then
          ({ st with
            new_temp := some (((sp.getD 2 0 * 256 + sp.getD 1 0 : Nat) : ℚ) / 256)
            state := ConvState.idle
            last_action := now }, true)
        else failArm st
      | none => failArm st

/-- Python `custom_cache or CACHE_TIMEOUT` (both `None` and `0` fall back). -/
def pyOrQ (x : Option Nat) (d : ℚ) : ℚ :=
  match x with
  | none => d
  | some v => if v = 0 then d else (v : ℚ)

/-- `DS2438Reading.is_valid` at the given time. -/
def reading_is_valid (rd : Reading) (now : ℚ) : Bool :=
  decide (now - rd.timestamp < rd.cache_timeout)

/-- `DS2438.get_reading` (the local `state` variable is written out as
`process_state st now e` in each branch; `process_state` is pure). -/
def get_reading (st : DState) (now : ℚ) (e : Env) (custom : Option Nat) :
    DState × Option Reading :=
  if (match st.reading with
      | some rd => reading_is_valid rd now
      | none => false) && decide (st.state ≠ ConvState.idle) then (st, st.reading)
  else if !(process_state st now e).2 then
    ((process_state st now e).1, (process_state st now e).1.reading)
  else if (process_state st now e).1.state = ConvState.idle then
    match (process_state st now e).1.new_vdd, (process_state st now e).1.new_vad,
        (process_state st now e).1.new_vse, (process_state st now e).1.new_temp with
    | some vdd, some vad, some vse, some temp =>
      ({ (process_state st now e).1 with
          reading := some ⟨vdd, vad, vse, temp, now, pyOrQ custom CACHE_TIMEOUT⟩ },
        some ⟨vdd, vad, vse, temp, now, pyOrQ custom CACHE_TIMEOUT⟩)
    | _, _, _, _ => ((process_state st now e).1, (process_state st now e).1.reading)
  else ((process_state st now e).1, (process_state st now e).1.reading)

end DS2438

namespace DS2438

lemma process_state_reading (st : DState) (now : ℚ) (e : Env) :
    (process_state st now e).1.reading = st.reading := by
  unfold process_state
  repeat' split
  all_goals simp [start_conversion, failArm]

lemma process_state_cases (st : DState) (now : ℚ) (e : Env) :
    (process_state st now e).2 = true ∨
      process_state st now e = ({ st with state := ConvState.idle }, false) := by
  unfold process_state
  repeat' split
  all_goals simp [start_conversion, failArm]

lemma process_state_complete (st : DState) (now : ℚ) (e : Env)
    (hok : (process_state st now e).2 = true)
    (hidle : (process_state st now e).1.state = ConvState.idle) :
    st.state = ConvState.tempRead ∧ CONVERSION_TIME ≤ now - st.last_action ∧
      (process_state st now e).1.new_vdd = st.new_vdd ∧
      (process_state st now e).1.new_vad = st.new_vad ∧
      (process_state st now e).1.new_vse = st.new_vse ∧
      (process_state st now e).1.new_temp.isSome = true := by
  unfold process_state at hok hidle ⊢
  repeat' split at hok
  all_goals simp_all [start_conversion, failArm]
  all_goals simp only [if_neg (not_lt.mpr (by assumption :
    CONVERSION_TIME ≤ now - st.last_action))]
  all_goals simp

lemma process_state_not_ready (st : DState) (now : ℚ) (e : Env)
    (hs : st.state ≠ ConvState.idle) (ht : now - st.last_action < CONVERSION_TIME) :
    process_state st now e = (st, true) := by
  unfold process_state
  rw [if_neg hs, if_pos ht]

lemma get_reading_cases (st : DState) (now : ℚ) (e : Env) (custom : Option Nat) :
    get_reading st now e custom = (st, st.reading) ∨
    get_reading st now e custom =
      ((process_state st now e).1, (process_state st now e).1.reading) ∨
    (∃ vdd vad vse temp,
      (process_state st now e).2 = true ∧
      (process_state st now e).1.state = ConvState.idle ∧
      (process_state st now e).1.new_vdd = some vdd ∧
      (process_state st now e).1.new_vad = some vad ∧
      (process_state st now e).1.new_vse = some vse ∧
      (process_state st now e).1.new_temp = some temp ∧
      get_reading st now e custom =
        ({ (process_state st now e).1 with
            reading := some ⟨vdd, vad, vse, temp, now, pyOrQ custom CACHE_TIMEOUT⟩ },
          some ⟨vdd, vad, vse, temp, now, pyOrQ custom CACHE_TIMEOUT⟩)) := by
  unfold get_reading
  split
  · exact Or.inl rfl
  · rcases hok : (process_state st now e).2 with _ | _
    · exact Or.inr (Or.inl rfl)
    · simp only [Bool.not_true, Bool.false_eq_true, if_false]
      split
      case isTrue hidle =>
        split
        next vdd vad vse temp h1 h2 h3 h4 =>
          exact Or.inr (Or.inr ⟨vdd, vad, vse, temp, trivial, hidle, h1, h2, h3, h4, rfl⟩)
        all_goals exact Or.inr (Or.inl rfl)
      case isFalse h => exact Or.inr (Or.inl rfl)

end DS2438

/-- C5 counterexample: with the machine idle (last phase transition stamped at
t = 100) and no cached reading, a poll at the same instant t = 100 — elapsed
time 0, below the 50 ms conversion time — does not leave the machine in the
same phase: the idle state starts a new conversion cycle immediately,
moving idle → vddConfig.  The spec's "polling faster than the conversion time
must leave the state machine in the same phase" therefore fails for the idle
phase. -/
theorem claim_C5_counterexample :
    (DS2438.get_reading ⟨DS2438.ConvState.idle, 100, none, none, none, none, none⟩ 100
        (DS2438.envOk []) none).1.state = DS2438.ConvState.vddConfig ∧
      DS2438.ConvState.vddConfig ≠ DS2438.ConvState.idle :=
  ⟨rfl, by decide⟩

/-- C5 (amended): (1) a poll arriving before the minimum conversion time in a
non-idle phase leaves the machine in exactly the same state and publishes
nothing (from the idle phase a poll starts a new cycle immediately, see the
counterexample); (2) a combined Reading is published (the stored reading
changes) only on the successful temperature-read completion of a cycle: the
machine was in the tempRead phase, the conversion time had elapsed, VDD, VAD
and VSE were already collected, and the machine returns to idle; (3) a phase
failure on a cache-miss poll resets the machine to idle while preserving the
last good Reading; (4) a poll in the idle phase starts a new cycle that
clears all four collected values, publishing nothing. -/
theorem claim_C5_ds2438_cycle (st : DS2438.DState) (now : ℚ) (e : DS2438.Env)
    (custom : Option Nat) :
    (st.state ≠ DS2438.ConvState.idle →
      now - st.last_action < DS2438.CONVERSION_TIME →
      DS2438.get_reading st now e custom = (st, st.reading)) ∧
    ((DS2438.get_reading st now e custom).1.reading ≠ st.reading →
      st.state = DS2438.ConvState.tempRead ∧
      DS2438.CONVERSION_TIME ≤ now - st.last_action ∧
      st.new_vdd.isSome = true ∧ st.new_vad.isSome = true ∧
      st.new_vse.isSome = true ∧
      (DS2438.get_reading st now e custom).1.state = DS2438.ConvState.idle) ∧
    ((match st.reading with
      | some rd => DS2438.reading_is_valid rd now
      | none => false) = false →
      (DS2438.process_state st now e).2 = false →
      DS2438.get_reading st now e custom =
        ({ st with state := DS2438.ConvState.idle }, st.reading)) ∧
    (st.state = DS2438.ConvState.idle →
      DS2438.get_reading st now e custom =
        (⟨DS2438.ConvState.vddConfig, now, st.reading, none, none, none, none⟩,
          st.reading)) := by
  refine ⟨?_, ?_, ?_, ?_⟩
  · intro hs ht
    unfold DS2438.get_reading
    rw [DS2438.process_state_not_ready st now e hs ht]
    split
    · rfl
    · simp [hs]
  · intro hneq
    rcases DS2438.get_reading_cases st now e custom with hc | hc | hc
    · exact absurd (by rw [hc]) hneq
    · exact absurd (by rw [hc]; exact DS2438.process_state_reading st now e) hneq
    · obtain ⟨vdd, vad, vse, temp, hok, hidle, h1, h2, h3, _, hpub⟩ := hc
      obtain ⟨hpre, hready, hvdd, hvad, hvse, _⟩ :=
        DS2438.process_state_complete st now e hok hidle
      refine ⟨hpre, hready, ?_, ?_, ?_, ?_⟩
      · rw [← hvdd, h1]; rfl
      · rw [← hvad, h2]; rfl
      · rw [← hvse, h3]; rfl
      · rw [hpub]
        exact hidle
  · intro hnc hfail
    have hps : DS2438.process_state st now e =
        ({ st with state := DS2438.ConvState.idle }, false) := by
      rcases DS2438.process_state_cases st now e with h | h
      · rw [h] at hfail; cases hfail
      · exact h
    unfold DS2438.get_reading
    rw [hnc, hps]
    simp
  · intro hs
    unfold DS2438.get_reading
    have hps : DS2438.process_state st now e = (DS2438.start_conversion st now, true) := by
      unfold DS2438.process_state
      rw [if_pos hs]
    have hcond : (decide (st.state ≠ DS2438.ConvState.idle)) = false := by
      simp [hs]
    rw [hps, hcond, Bool.and_false]
    simp [DS2438.start_conversion]

set_option maxRecDepth 4000 in
/-- Witness for the amended C5: a mid-cycle poll 0 s after the last phase
transition (below the 50 ms conversion time) is a no-op. -/
theorem claim_C5_ds2438_cycle_witness :
    DS2438.get_reading ⟨DS2438.ConvState.vddConvert, 100, none, none, none, none, none⟩
        100 (DS2438.envOk []) none =
      (⟨DS2438.ConvState.vddConvert, 100, none, none, none, none, none⟩, none) :=
  (claim_C5_ds2438_cycle ⟨DS2438.ConvState.vddConvert, 100, none, none, none, none, none⟩
      100 (DS2438.envOk []) none).1 (by decide)
    (by show (100 : ℚ) - 100 < DS2438.CONVERSION_TIME
        norm_num [DS2438.CONVERSION_TIME])

namespace DS28E17

/-- `CMD_WRITE_DATA` (write data with stop). -/
def CMD_WRITE_DATA : Nat := 0x4B

/-- `CMD_READ_DATA` (read data with stop). -/
def CMD_READ_DATA : Nat := 0x87

/-- The completion-polling loop of `write_data`: reads status bytes until one
is zero; gives up when `retries` reaches 100 (so at most 100 reads).  Returns
the index of the next unread byte, `none` on a failed read or timeout.
`fuel` starts at 99 (`retries` may grow from 0 to 99 before the bound hits). -/
def pollBytes (reads : Nat → Option Nat) : Nat → Nat → Option Nat
  | i, fuel =>
    match reads i with
    | none => none
    | some bit =>
      if bit == 0 then some (i + 1)
      else match fuel with
        | 0 => none
        | fuel' + 1 => pollBytes reads (i + 1) fuel'

/-- The completion-polling loop of `read_data` over `wire_single_bit(True)`
results: same bound, polling a bit stream. -/
def pollBits (bits : Nat → Option Bool) : Nat → Nat → Option Nat
  | i, fuel =>
    match bits i with
    | none => none
    | some b =>
      if !b then some (i + 1)
      else match fuel with
        | 0 => none
        | fuel' + 1 => pollBits bits (i + 1) fuel'

/-- `DS28E17.write_data`: validation, packet construction with inverted
CRC16, reset + select, checked packet writes, completion polling, then two
status bytes; returns `status == 0`.  `writes k` is the k-th
`wire_write_byte` result, `reads` the `wire_read_byte` stream (polling bytes
followed by the two status bytes). -/
def write_data (resetOk selOk : Bool) (writes : Nat → Bool)
    (reads : Nat → Option Nat) (address : Nat) (data : List Nat) : Bool :=
  if !(1 ≤ data.length && data.length ≤ 255) then false
  else if !(address ≤ 127) then false
  else
    let i2cAddr := (address * 2) % 256
    let packet0 := [CMD_WRITE_DATA, i2cAddr, data.length] ++ data
    let crc := OneWire.calc_crc16 packet0 ^^^ 0xFFFF
    let packet := packet0 ++ [crc % 256, crc / 256]
    if !resetOk then false
    else if !selOk then false
    else if !((List.range packet.length).all writes) then false
    else match pollBytes reads 0 99 with
      | none => false
      | some i =>
        match reads i, reads (i + 1) with
        | some status, some _writeStatus => status == 0
        | _, _ => false

/-- `DS28E17.read_data`: validation, packet construction with inverted CRC16,
select + reset + select, checked packet writes, completion polling over
single-bit reads, one status byte, then the payload bytes.  The status byte
is read (and logged) but never checked: the payload is returned regardless of
its value. -/
def read_data (selOk1 resetOk selOk2 : Bool) (writes : Nat → Bool)
    (bits : Nat → Option Bool) (reads : Nat → Option Nat)
    (address numBytes : Nat) : Option (List Nat) :=
  if !(1 ≤ numBytes && numBytes ≤ 255) then none
  else if !(address ≤ 127) then none
  else
    let i2cAddr := (address * 2 + 1) % 256
    let packet0 := [CMD_READ_DATA, i2cAddr, numBytes]
    let crc := OneWire.calc_crc16 packet0 ^^^ 0xFFFF
    let packet := packet0 ++ [crc % 256, crc / 256]
    if !selOk1 then none
    else if !resetOk then none
    else if !selOk2 then none
    else if !((List.range packet.length).all writes) then none
    else match pollBits bits 0 99 with
      | none => none
      | some _ =>
        match reads 0 with
        | none => none
        | some _status =>
          let dataBytes := (List.range numBytes).map fun k => reads (1 + k)
          if dataBytes.all Option.isSome then some (dataBytes.map fun o => o.getD 0)
          else none

end DS28E17

/-- C7 (code bug): `read_data` reads the status byte after completion but
never checks it.  With every hardware step succeeding, the completion bit
immediately clear, the status byte 0x01 (non-zero, an I2C error report), and
payload bytes 0xAB, `read_data` returns the payload instead of the `None`
the claim (and the module docstring: status verification for all operations)
requires.  `write_data` does return `status == 0`; the defect is in the read
path. -/
theorem claim_C7_read_data_ignores_status :
    DS28E17.read_data true true true (fun _ => true) (fun _ => some false)
      (fun i => if i == 0 then some 0x01 else some 0xAB) 0x21 2 =
      some [0xAB, 0xAB] := by decide

namespace DM117

/-- `Crc8Smbus.calc` of the `crccheck` package (polynomial 0x07, init 0x00,
not reflected, xor-out 0x00) — the same algorithm as `SMBus._calc_crc8`. -/
def crc8smbus (data : List Nat) : Nat := SMBusProxy.calc_crc8 data

/-- The per-module parsing loop of `read_ports`: a type byte per module, then
one value byte (input/output) or two (dimmer, type 1), accumulating the CRC
input `data` and the module-indexed `values`.  Returns the next read index
with the accumulators; `none` models a failed `read_byte` (OSError, caught as
a failed read).  The `port_types` bookkeeping of the source does not affect
the returned values and is not modelled. -/
def parseModules (reads : Nat → Option Nat) :
    Nat → Nat → List Nat → List (Nat × Nat) →
      Option (Nat × List Nat × List (Nat × Nat))
  | 0, i, data, values => some (i, data, values)
  | n + 1, i, data, values =>
    match reads i with
    | none => none
    | some ty =>
      if ty == 1 then
        match reads (i + 1), reads (i + 2) with
        | some hi, some lo =>
          parseModules reads n (i + 3) (data ++ [ty, hi, lo])
            (values ++ [(values.length, hi * 256 + lo)])
        | _, _ => none
      else
        match reads (i + 1) with
        | some v =>
          parseModules reads n (i + 2) (data ++ [ty, v])
            (values ++ [(values.length, v)])
        | none => none

/-- `DM117.read_ports`: within 10 ms of the last read the cached values are
returned (`throttled`); otherwise the read command is written (`writeCmdOk`
false models the raised OSError), the module-count byte is read and
sanity-checked (`> 8` raises ValueError, caught, returning None), the
per-module bytes are parsed, and the trailing CRC byte must equal the SMBus
CRC8 over the count byte and the per-module bytes. -/
def read_ports (throttled : Bool) (lastValues : List (Nat × Nat))
    (writeCmdOk : Bool) (reads : Nat → Option Nat) : Option (List (Nat × Nat)) :=
  if throttled then some lastValues
  else if !writeCmdOk then none
  else match reads 0 with
    | none => none
    | some num =>
      if num > 8 then none
      else match parseModules reads num 1 [num] [] with
        | none => none
        | some (i, data, _values) =>
          match reads i with
          | none => none
          | some crcRecv =>
            if crcRecv != crc8smbus data then none else some _values

end DM117

/-- C8: an unthrottled `read_ports` returns no data whenever the response's
module-count byte exceeds 8, and whenever the response parses but its
trailing CRC byte differs from the SMBus CRC8 computed over the count byte
and the per-module type/value bytes. -/
theorem claim_C8_read_ports_rejects (lastValues : List (Nat × Nat))
    (reads : Nat → Option Nat) :
    (∀ num, reads 0 = some num → 8 < num →
      DM117.read_ports false lastValues true reads = none) ∧
    (∀ num i data values crcRecv, reads 0 = some num → num ≤ 8 →
      DM117.parseModules reads num 1 [num] [] = some (i, data, values) →
      reads i = some crcRecv → crcRecv ≠ DM117.crc8smbus data →
      DM117.read_ports false lastValues true reads = none) := by
  constructor
  · intro num h0 hgt
    unfold DM117.read_ports
    rw [h0]
    simp only [Bool.not_true, Bool.false_eq_true, if_false]
    rw [if_pos hgt]
  · intro num i data values crcRecv h0 hle hparse hcrcRead hne
    unfold DM117.read_ports
    rw [h0]
    simp only [Bool.not_true, Bool.false_eq_true, if_false]
    rw [if_neg (not_lt.mpr hle), hparse]
    show (match reads i with
      | none => none
      | some crcRecv =>
        if (crcRecv != DM117.crc8smbus data) = true then none else some values) = none
    rw [hcrcRead]
    show (if (crcRecv != DM117.crc8smbus data) = true then none else some values) = none
    rw [if_pos (bne_iff_ne.mpr hne)]

/-- Witness for C8: a response claiming 9 modules is rejected, and a
one-module response `[count 1, type 0, value 5, crc 255]` whose CRC byte does
not match the computed CRC8 of `[1, 0, 5]` is rejected. -/
theorem claim_C8_read_ports_rejects_witness :
    DM117.read_ports false [] true (fun _ => some 9) = none ∧
    DM117.read_ports false [] true (fun i => some ([1, 0, 5, 255].getD i 0)) = none :=
  ⟨(claim_C8_read_ports_rejects [] (fun _ => some 9)).1 9 rfl (by decide),
   (claim_C8_read_ports_rejects [] (fun i => some ([1, 0, 5, 255].getD i 0))).2
     1 3 [1, 0, 5] [(0, 5)] 255 rfl (by decide) (by decide) (by decide) (by decide)⟩

namespace PCF8574

/-- The mutable fields of a `PCF8574` instance touched by `write_port`:
`last_value` starts at `-1` (hence `Int`), `port_states` is the 8-entry
list. -/
structure PCFState where
  last_value : Int
  port_states : List Nat
  deriving DecidableEq, Repr

/-- The `new_value` computation of `write_port`: `current = last_value & 0xFF`
(Python `&` on a possibly negative int is two's-complement, i.e. `% 256` into
`[0, 255]`), then set or clear bit `port` and mask to a byte.  For
`current ≤ 255` and `port ≤ 7`, Python's `current & ~(1 << port)` equals
`current &&& (255 ^^^ (1 <<< port))`. -/
def newValue (lv : Int) (port state : Nat) : Nat :=
  let current : Nat := (lv % 256).toNat
  if state ≠ 0 then (current ||| (1 <<< port)) % 256
  else (current &&& (255 ^^^ (1 <<< port))) % 256

/-- The tail of `write_port` after the `last_value` refresh: write the new
byte (`mainWriteOk` false models an OSError, caught, returning False), then
with `verify` read back (`readBack` none models an OSError) and compare; on
a match, commit `last_value` and `port_states[port]`. -/
def write_port_tail (st : PCFState) (port state : Nat) (verify : Bool)
    (mainWriteOk : Bool) (readBack : Option Nat) : Option (Bool × PCFState) :=
  if !mainWriteOk then some (false, st)
  else
    let nv := newValue st.last_value port state
    if verify then
      match readBack with
      | none => some (false, st)
      | some rv =>
        if rv ≠ nv then some (false, st)
        else some (true, { st with last_value := (nv : Int), port_states := st.port_states.set port state })
    else some (true, { st with last_value := (nv : Int), port_states := st.port_states.set port state })

/-- `PCF8574.write_port`: `none` models the uncaught ValueError for a port
outside 0–7 (`port : Nat`, so only the upper bound is checked); when
`last_value` is outside `[0, 255]` the current state is refreshed first —
`initWriteOk` is the 0xFF wake-up write and `readCur` the subsequent read,
either failure being an OSError caught as a False return — and the refresh
assigns `self.last_value` BEFORE the main write and verification run. -/
def write_port (st : PCFState) (port state : Nat) (verify : Bool)
    (initWriteOk : Bool) (readCur : Option Nat) (mainWriteOk : Bool)
    (readBack : Option Nat) : Option (Bool × PCFState) :=
  if 7 < port then none
  else if ¬(0 ≤ st.last_value ∧ st.last_value ≤ 255) then
    if !initWriteOk then some (false, st)
    else match readCur with
      | none => some (false, st)
      | some cur =>
        write_port_tail { st with last_value := (cur : Int) } port state verify
          mainWriteOk readBack
  else write_port_tail st port state verify mainWriteOk readBack

end PCF8574

/-- Counterexample for C9: with the initial `last_value = -1`, a verified
write whose read-back (5) mismatches the written byte (1) returns False but
has already overwritten `last_value` with the refreshed current state 0, so
the cached state is not left unchanged. -/
theorem claim_C9_counterexample :
    PCF8574.write_port ⟨-1, List.replicate 8 0⟩ 0 1 true true (some 0) true
      (some 5) = some (false, ⟨0, List.replicate 8 0⟩) ∧ (0 : Int) ≠ -1 := by
  decide

/-- C9 (amended): when verification is enabled and the read-back byte
differs from the written byte, `write_port` returns False and leaves
`port_states` unchanged; `last_value` is also unchanged provided it was
already a valid byte (the invalid-`last_value` refresh path instead leaves
`last_value` at the freshly read current state). -/
theorem claim_C9_write_port_verify (st : PCF8574.PCFState) (port state : Nat)
    (initWriteOk : Bool) (readCur : Option Nat) (cur rb : Nat)
    (hport : port ≤ 7) :
    (0 ≤ st.last_value → st.last_value ≤ 255 →
      rb ≠ PCF8574.newValue st.last_value port state →
      PCF8574.write_port st port state true initWriteOk readCur true (some rb) =
        some (false, st)) ∧
    (¬(0 ≤ st.last_value ∧ st.last_value ≤ 255) →
      rb ≠ PCF8574.newValue (cur : Int) port state →
      PCF8574.write_port st port state true true (some cur) true (some rb) =
        some (false, { st with last_value := (cur : Int) })) := by
  constructor
  · intro h0 h255 hne
    unfold PCF8574.write_port
    rw [if_neg (not_lt.mpr hport), if_neg (not_not_intro ⟨h0, h255⟩)]
    unfold PCF8574.write_port_tail
    simp only [Bool.not_true, Bool.false_eq_true, if_false, eq_self_iff_true, if_true]
    show (if rb ≠ PCF8574.newValue st.last_value port state then
        some (false, st) else _) = some (false, st)
    rw [if_pos hne]
  · intro hinv hne
    unfold PCF8574.write_port
    rw [if_neg (not_lt.mpr hport), if_pos hinv]
    show PCF8574.write_port_tail { st with last_value := (cur : Int) } port state
        true true (some rb) = some (false, { st with last_value := (cur : Int) })
    unfold PCF8574.write_port_tail
    simp only [Bool.not_true, Bool.false_eq_true, if_false, eq_self_iff_true, if_true]
    show (if rb ≠ PCF8574.newValue (cur : Int) port state then
        some (false, { st with last_value := (cur : Int) }) else _) =
      some (false, { st with last_value := (cur : Int) })
    rw [if_pos hne]

/-- Witness for C9: a valid cached byte 7, writing port 0 high gives
`new_value = 7`; a read-back of 9 mismatches, so the call fails with the
state fully unchanged, and the invalid-cache branch with refreshed current
state 0 fails leaving `last_value` at 0. -/
theorem claim_C9_write_port_verify_witness :
    PCF8574.write_port ⟨7, List.replicate 8 0⟩ 0 1 true true (some 0) true
        (some 9) = some (false, ⟨7, List.replicate 8 0⟩) ∧
    PCF8574.write_port ⟨-1, List.replicate 8 0⟩ 0 1 true true (some 0) true
        (some 9) = some (false, ⟨0, List.replicate 8 0⟩) :=
  ⟨(claim_C9_write_port_verify ⟨7, List.replicate 8 0⟩ 0 1 true (some 0) 0 9
      (by decide)).1 (by decide) (by decide) (by decide),
   (claim_C9_write_port_verify ⟨-1, List.replicate 8 0⟩ 0 1 true (some 0) 0 9
      (by decide)).2 (by decide) (by decide)⟩

namespace LEDController

/-- `led_controller.CACHE_TIMEOUT` (seconds). -/
def CACHE_TIMEOUT : Nat := 20

/-- `LEDConfig`: `animation` carries the `AnimationMode` enum value (0–4 by
the enum's construction); a color is an (red, green, blue) triple. -/
structure LEDConfig where
  led_count : Nat
  state : Bool
  brightness : Nat
  animation : Nat
  animation_speed : Nat
  colors : List (Nat × Nat × Nat)
  deriving DecidableEq, Repr

/-- `LEDConfig.validate` (the `0 ≤` halves of the range checks are automatic
for `Nat`). -/
def LEDConfig.validate (c : LEDConfig) : Bool :=
  if ¬(1 ≤ c.led_count ∧ c.led_count ≤ 255) then false
  else if ¬(c.brightness ≤ 255) then false
  else if ¬(c.animation_speed ≤ 255) then false
  else if c.colors.length ≠ 5 then false
  else c.colors.all fun col => col.1 ≤ 255 && col.2.1 ≤ 255 && col.2.2 ≤ 255

/-- `CachedConfig`: timestamps are absolute times (`Int` seconds),
`cache_time` the lifetime chosen when the entry was stored. -/
structure CachedConfig where
  config : LEDConfig
  timestamp : Int
  cache_time : Nat
  deriving DecidableEq, Repr

/-- `CachedConfig.is_valid` at the current time `now`. -/
def CachedConfig.is_valid (cc : CachedConfig) (now : Int) : Bool :=
  decide (now - cc.timestamp < (cc.cache_time : Int))

/-- Python's `custom_cache or CACHE_TIMEOUT`: both `None` and `0` fall back
to the default. -/
def pyOr : Option Nat → Nat
  | none => CACHE_TIMEOUT
  | some 0 => CACHE_TIMEOUT
  | some (n + 1) => n + 1

/-- The write packet of `write_config`: start register 0x00, the five basic
config bytes, then the 5 colors at 3 bytes each. -/
def configData (c : LEDConfig) : List Nat :=
  0 :: c.led_count :: (if c.state then 1 else 0) :: c.brightness ::
    c.animation :: c.animation_speed ::
    c.colors.flatMap fun col => [col.1, col.2.1, col.2.2]

/-- The retry loop of `write_config`: attempt `i` succeeds when `f i`; at
most `fuel` attempts (`retries = 4`), false when all fail (`retries == 0`). -/
def firstOk (f : Nat → Bool) : Nat → Nat → Bool
  | _, 0 => false
  | i, fuel + 1 => if f i then true else firstOk f (i + 1) fuel

/-- `LEDController.write_config` over the cache keyed by device id (`Nat`
stands for the device-id string): validation failure returns False without
touching the bus; otherwise up to 4 `bridge.write_data` attempts
(`writeOk i (configData c)` abstracts attempt `i` on the packet), and on
success the cache entry for `d` is replaced with the new config stamped at
`now` with lifetime `custom_cache or CACHE_TIMEOUT`. -/
def write_config (cache : Nat → Option CachedConfig) (d : Nat) (c : LEDConfig)
    (custom : Option Nat) (now : Int) (writeOk : Nat → List Nat → Bool) :
    Bool × (Nat → Option CachedConfig) :=
  if !c.validate then (false, cache)
  else if firstOk (fun i => writeOk i (configData c)) 0 4 then
    (true, fun d' => if d' = d then some ⟨c, now, pyOr custom⟩ else cache d')
  else (false, cache)

/-- The colour parse of `read_config`: 5 colors, 3 bytes each, from offset
`REG_COLORS = 5`. -/
def colorsFrom (data : List Nat) : List (Nat × Nat × Nat) :=
  (List.range 5).map fun i =>
    (data.getD (5 + 3 * i) 0, data.getD (5 + 3 * i + 1) 0, data.getD (5 + 3 * i + 2) 0)

/-- The cache-miss path of `read_config`: one bridge read (`bridgeData` none
models a falsy/failed `read_data`), the 20-byte length check, the parse,
`AnimationMode(code)` raising ValueError for codes above 4, validation, and
the cache update.  The third component counts bridge reads (always 1 here). -/
def read_miss (cache : Nat → Option CachedConfig) (d : Nat)
    (custom : Option Nat) (now : Int) (bridgeData : Option (List Nat)) :
    Option LEDConfig × (Nat → Option CachedConfig) × Nat :=
  match bridgeData with
  | none => (none, cache, 1)
  | some data =>
    if data.length ≠ 20 then (none, cache, 1)
    else
      if 4 < data.getD 3 0 then (none, cache, 1)
      else
        if !(LEDConfig.validate ⟨data.getD 0 0, data.getD 1 0 != 0, data.getD 2 0,
            data.getD 3 0, data.getD 4 0, colorsFrom data⟩) then (none, cache, 1)
        else
          (some ⟨data.getD 0 0, data.getD 1 0 != 0, data.getD 2 0, data.getD 3 0,
              data.getD 4 0, colorsFrom data⟩,
           fun d' => if d' = d then
              some ⟨⟨data.getD 0 0, data.getD 1 0 != 0, data.getD 2 0,
                  data.getD 3 0, data.getD 4 0, colorsFrom data⟩, now, pyOr custom⟩
            else cache d', 1)

/-- `LEDController.read_config`: with `use_cache` and a still-valid cached
entry the cached config is returned with no bridge read (third component 0);
otherwise the device is read via `read_miss`. -/
def read_config (cache : Nat → Option CachedConfig) (d : Nat)
    (custom : Option Nat) (useCache : Bool) (now : Int)
    (bridgeData : Option (List Nat)) :
    Option LEDConfig × (Nat → Option CachedConfig) × Nat :=
  match (if useCache then cache d else none) with
  | some cached =>
    if cached.is_valid now then (some cached.config, cache, 0)
    else read_miss cache d custom now bridgeData
  | none => read_miss cache d custom now bridgeData

end LEDController

/-- C10: if `write_config d c` succeeds for a valid config `c`, then any
`read_config d` with `use_cache` issued while the written entry's lifetime
(`custom_cache or 20` seconds from the write) has not elapsed returns
exactly `c`, leaves the cache unchanged, and performs no bridge (1-Wire)
read. -/
theorem claim_C10_config_roundtrip
    (cache cache' : Nat → Option LEDController.CachedConfig) (d : Nat)
    (c : LEDController.LEDConfig) (custom custom' : Option Nat) (now now' : Int)
    (writeOk : Nat → List Nat → Bool) (bridgeData : Option (List Nat))
    (hw : LEDController.write_config cache d c custom now writeOk = (true, cache'))
    (hfresh : now' - now < (LEDController.pyOr custom : Int)) :
    LEDController.read_config cache' d custom' true now' bridgeData =
      (some c, cache', 0) := by
  unfold LEDController.write_config at hw
  cases hv : c.validate with
  | false => rw [hv] at hw; simp at hw
  | true =>
    rw [hv] at hw
    simp only [Bool.not_true, Bool.false_eq_true, if_false] at hw
    cases hfo : LEDController.firstOk (fun i => writeOk i (LEDController.configData c)) 0 4 with
    | false => rw [if_neg (by simp [hfo])] at hw; simp at hw
    | true =>
      rw [if_pos hfo] at hw
      have hc : cache' = fun d' =>
          if d' = d then some ⟨c, now, LEDController.pyOr custom⟩ else cache d' :=
        ((Prod.mk.injEq _ _ _ _).mp hw).2.symm
      subst hc
      unfold LEDController.read_config
      rw [if_pos rfl]
      show (match (if d = d then some (⟨c, now, LEDController.pyOr custom⟩ :
          LEDController.CachedConfig) else cache d) with
        | some cached =>
          if cached.is_valid now' then (some cached.config, _, 0)
          else LEDController.read_miss _ d custom' now' bridgeData
        | none => LEDController.read_miss _ d custom' now' bridgeData) = _
      rw [if_pos rfl]
      show (if LEDController.CachedConfig.is_valid
          ⟨c, now, LEDController.pyOr custom⟩ now' = true
        then (some c, _, 0)
        else LEDController.read_miss _ d custom' now' bridgeData) = _
      rw [if_pos (show LEDController.CachedConfig.is_valid
          ⟨c, now, LEDController.pyOr custom⟩ now' = true from decide_eq_true hfresh)]

/-- The default LED configuration (`LEDConfig.create_default`), used as the
C10 witness payload. -/
def c10Config : LEDController.LEDConfig :=
  ⟨30, false, 128, 0, 50, [(255, 255, 255), (0, 0, 0), (0, 0, 0), (0, 0, 0), (0, 0, 0)]⟩

/-- The cache produced by the C10 witness write: device 1 stamped at time
100 with the default 20 s lifetime. -/
def c10Cache : Nat → Option LEDController.CachedConfig :=
  fun d' => if d' = 1 then some ⟨c10Config, 100, 20⟩ else none

/-- Witness for C10: writing the default config to device 1 at t = 100
succeeds on the first attempt, and a cached read at t = 110 returns it with
zero bridge reads. -/
theorem claim_C10_config_roundtrip_witness :
    LEDController.read_config c10Cache 1 none true 110 none =
      (some c10Config, c10Cache, 0) :=
  claim_C10_config_roundtrip (fun _ => none) c10Cache 1 c10Config none none
    100 110 (fun _ _ => true) none (by rfl) (by decide)
